import Mathlib

/-!
# bigbang-adapter: transaction construction core

A shallow embedding of `bigbang/tx_decode.go` and of the client helpers of
`bigbang/node_api.go` that it calls.

Conventions of the embedding.

* Go `uint64` values are naturals reduced modulo `2^64`; `int64(x)` of a `uint64`
  is the two's-complement reading; `*big.Int` is `Int`.
* A Go function returning `(value, error)` is a Lean function returning `Except`;
  where the Go caller drops the error and keeps the (nil) value, the model does
  the same.
* The collaborators that are not part of the source (wallet storage and keys, block
  scanner, JSON-RPC transport, the transaction encoder, signer and verifier, the
  amount conversion helpers and the configuration) are the fields of `Env`.  One
  `Env` is one snapshot: a query repeated inside one call sees the same answer.
* `*rawTx` is mutated in place in Go; the model returns the final state of the
  record together with the returned error and the list of collaborator calls
  that were made, in order.
* A Go map is an association list whose order stands for the iteration order.
* Statements about amounts are made in base units, as naturals.  Where the code
  compares or adds the `int64` reading of a `uint64` value, a statement carries the
  proviso that the value is below `2^63`, the range in which the reading is exact.
-/

set_option linter.dupNamespace false

namespace BigBang

/-! ## Machine integers -/

/-- Value of a Go `uint64` holding the natural `n`. -/
def uint64 (n : Nat) : Nat := n % 2 ^ 64

/-- Go conversion `int64(x)` of a `uint64` value. -/
def int64 (n : Nat) : Int :=
  if n % 2 ^ 64 < 2 ^ 63 then ((n % 2 ^ 64 : Nat) : Int) else ((n % 2 ^ 64 : Nat) : Int) - 2 ^ 64

/-- Go conversion `byte(x)` of an unsigned value. -/
def byte (n : Nat) : Nat := n % 256

/-- Method `(*big.Int).Uint64`: the low 64 bits of the magnitude. -/
def bigUint64 (x : Int) : Nat := x.natAbs % 2 ^ 64

/-! ## Data model -/

/-- Type `UnSpent` of `node_api.go`. -/
structure UnSpent where
  TxID : String
  Vout : Nat
  Amount : Nat
deriving DecidableEq, Repr

/-- Type `UTXOinPool` of `node_api.go`. -/
structure UTXOinPool where
  TxID : String
  Vout : Nat
deriving DecidableEq, Repr

/-- Type `bigbangTransaction.Vin`: a reference to a spent output. -/
structure Vin where
  TxID : String
  Vout : Nat
deriving DecidableEq, Repr

/-- Type `AddrBalance`, with the three fields the source reads and writes. -/
structure AddrBalance where
  Address : String
  Balance : Int
  index : Nat
deriving DecidableEq, Repr

/-- Type `openwallet.Address`, with the fields the source reads. -/
structure Address where
  Address : String
  HDPath : String
  PublicKey : String
deriving DecidableEq, Repr

/-- Type `openwallet.Balance`, with the fields the source reads. -/
structure Balance where
  Address : String
  Balance : String
deriving DecidableEq, Repr

/-- Type `openwallet.KeySignature`. -/
structure KeySignature where
  EccType : Nat
  Nonce : String
  Address : Address
  Message : String
  Signature : String
deriving DecidableEq, Repr

/-- Type `openwallet.RawTransaction`, with the fields the source reads and writes.
`To` and `Signatures` are Go maps.  `Vins` is a ghost field: the input list that
was serialised into `RawHex` by `CreateEmptyTransactionAndHash`. -/
structure RawTransaction where
  IsContract : Bool
  AccountID : String
  To : List (String × String)
  FeeRate : String
  memo : String
  Required : Nat
  TxFrom : List String
  TxTo : List String
  TxAmount : String
  Fees : String
  RawHex : String
  Vins : List Vin
  Signatures : List (String × List KeySignature)
  IsBuilt : Bool
  IsCompleted : Bool
  IsSubmit : Bool
  TxID : String
deriving DecidableEq, Repr

/-- Type `openwallet.Transaction`, with the fields that `SubmitRawTransaction` fills. -/
structure Transaction where
  From : List String
  To : List String
  Amount : String
  IsContract : Bool
  TxID : String
  Decimal : Nat
  AccountID : String
  Fees : String
  SubmitTime : Int
  WxID : String
deriving DecidableEq, Repr

/-- Type `openwallet.SummaryRawTransaction`, with the fields the source reads. -/
structure SummaryRawTransaction where
  IsContract : Bool
  AccountID : String
  MinTransfer : String
  RetainedBalance : String
  SummaryAddress : String
  FeeRate : String
  AddressStartIndex : Int
  AddressLimit : Int
deriving DecidableEq, Repr

/-- The errors constructed in `tx_decode.go`, one constructor per construction
site; `propagated` is an error of a collaborator returned unchanged. -/
inductive Error where
  /-- An error of a collaborator, returned as it is. -/
  | propagated (e : String)
  /-- Code `ErrContractNotFound`: "[%s] have not contract". -/
  | contractNotFound (accountID : String)
  /-- Code `ErrAccountNotAddress`: "[%s] have not addresses". -/
  | accountNotAddress (accountID : String)
  /-- Code `ErrUnknownException`: "Fail to get anchor!". -/
  | failToGetAnchor
  /-- Code `ErrUnknownException`: "the total balance: %s is enough, but cannot be
  send in one transaction!". -/
  | cannotSendInOneTransaction (amountStr : String)
  /-- Code `ErrInsufficientBalanceOfAccount`: "the balance: %s is not enough!". -/
  | balanceNotEnough (amountStr : String)
  /-- Code `ErrUnknownException`: "Failed to get transactions in pool%s!". -/
  | failedToGetPool
  /-- Code `ErrUnknownException`: "Failed to get utxo of address : [%s]!". -/
  | failedToGetUtxo (address : String)
  /-- Code `ErrUnknownException`: "Please wait until the transactions in pool being
  confirmed[%s]!". -/
  | waitUntilPoolConfirmed
  /-- Plain error "transaction hash sign failed, unexpected error: %v". -/
  | hashSignFailed (e : String)
  /-- Plain error "mini transfer amount must be greater than address retained
  balance". -/
  | miniTransferBelowRetained
  /-- Plain error "[%s] have not addresses". -/
  | haveNotAddresses (accountID : String)
  /-- Code `ErrUnknownException`: "Failed to get unspent record of address [%s]!". -/
  | failedUnspentRecord (address : String)
  /-- Code `ErrUnknownException`: "Failed to get transactions in tx pool [%s]!". -/
  | failedTxPool
  /-- Code `ErrUnknownException`: "Address [%s] has unconfirmed transaction, Try
  summary again later!". -/
  | unconfirmedTransaction (address : String)
  /-- Plain error "transaction hex is empty". -/
  | hexIsEmpty
  /-- Plain error "transaction is not completed validation". -/
  | notCompleted
deriving DecidableEq, Repr

/-- The collaborator calls that the decoder makes. -/
inductive Call where
  | GetAddressList (offset limit : Int) (accountID : String)
  | GetAddress (address : String)
  | GetBalanceByAddress (addrs : List String)
  | getAnchor
  | getBalance (address : String)
  | getUTXOsInPool
  | listUnnSpent (address : String)
  | CreateEmptyTransactionAndHash (vins : List Vin) (toAddr : String) (amount fee : Nat)
  | SendRawTransaction (rawHex : String)
  | HDKey
  | DerivedKeyWithPath (path : String) (eccType : Nat)
  | GetPrivateKeyBytes
  | SignTransactionHash (message : String)
  | VerifyAndCombineTransaction (emptyTrans signature : String) (pubkey : List Nat)
deriving DecidableEq, Repr

/-- The collaborators of the decoder. -/
structure Env where
  /-- Helper `convertFromAmount` (amount string to base units, a `uint64`). -/
  convertFromAmount : String → Nat
  /-- Helper `convertToAmount` (base units to amount string). -/
  convertToAmount : Nat → String
  /-- Field `wm.Config.FixedFee`, a `uint64`. -/
  FixedFee : Nat
  /-- Field `wm.Config.CurveType`. -/
  CurveType : Nat
  /-- Method `wrapper.GetAddressList(offset, limit, "AccountID", accountID)`. -/
  GetAddressList : Int → Int → String → Except String (List Address)
  /-- Method `wrapper.GetAddress(address)`. -/
  GetAddress : String → Except String Address
  /-- Method `wm.Blockscanner.GetBalanceByAddress(addrs...)`. -/
  GetBalanceByAddress : List String → Except String (List Balance)
  /-- Method `Client.getAnchor()`. -/
  getAnchor : Except String String
  /-- RPC `getbalance` for an address: the `avail` field of each array entry. -/
  rpcGetbalance : String → Except String (List String)
  /-- RPC `listunspent` for (address, anchor): `txid`, `out` and `amount` of each
  entry of `unspents`. -/
  rpcListunspent : String → String → Except String (List (String × Nat × String))
  /-- RPC `gettxpool`: `none` when the raw answer is an empty object, else the `hex`
  field of each entry of `list`. -/
  rpcGettxpool : Except String (Option (List String))
  /-- RPC `gettransaction` for a txid: `txid` and `vout` of each entry of `vin`. -/
  rpcGettransaction : String → Except String (List (String × Nat))
  /-- Function `bigbangTransaction.CreateEmptyTransactionAndHash(lockUntil, anchor,
  vins, to, amount, fee, memo)`, returning the empty transaction and its hash. -/
  CreateEmptyTransactionAndHash :
    Nat → String → List Vin → String → Nat → Nat → String → Except String (String × String)
  /-- Method `wm.SendRawTransaction(rawHex)`. -/
  SendRawTransaction : String → Except String String
  /-- Method `wm.Decimal()`. -/
  Decimal : Nat
  /-- Call `time.Now().Unix()` at submission. -/
  now : Int
  /-- Function `openwallet.GenTransactionWxID(tx)`. -/
  GenTransactionWxID : Transaction → String
  /-- Method `wrapper.HDKey()`, returning the wallet's extended key. -/
  HDKey : Except String String
  /-- Method `key.DerivedKeyWithPath(path, eccType)`, returning the child key. -/
  DerivedKeyWithPath : String → String → Nat → Except String String
  /-- Method `childKey.GetPrivateKeyBytes()`; the receiver is `none` when the
  derivation before it failed and left the child key nil. -/
  GetPrivateKeyBytes : Option String → Except String (List Nat)
  /-- Function `bigbangTransaction.SignTransactionHash(message, keyBytes)`. -/
  SignTransactionHash : String → List Nat → Except String String
  /-- Function `hex.DecodeString(s)`, as the bytes it returns; its error is dropped at
  line 319. -/
  DecodeString : String → List Nat
  /-- Function `bigbangTransaction.VerifyAndCombineTransaction(emptyTrans, signature,
  pubkey)`, returning whether the signature passes and the signed transaction. -/
  VerifyAndCombineTransaction : String → String → List Nat → Bool × String
  /-- Call `sort.Slice` of the library on a slice of more than 6 address balances,
  with the comparison of line 127. -/
  sortLonger : List AddrBalance → List AddrBalance
  /-- The library sorts by swapping elements: its result is a rearrangement. -/
  sortLonger_perm : ∀ l, (sortLonger l).Perm l

/-- Call `convertFromAmount(s)`, as the `uint64` it returns. -/
def fromAmount (env : Env) (s : String) : Nat := uint64 (env.convertFromAmount s)

/-! ## `node_api.go` -/

/-- Method `Client.getBalance(address, anchor)`. -/
def getBalance (env : Env) (address : String) (_anchor : String) : Except String AddrBalance :=
  match env.rpcGetbalance address with
  | .error e => .error e
  | .ok [] => .ok { Address := address, Balance := 0, index := 0 }
  | .ok (avail :: _) =>
    .ok { Address := address, Balance := int64 (fromAmount env avail), index := 0 }

/-- Method `Client.listUnnSpent(address, anchor)`. -/
def listUnnSpent (env : Env) (address anchor : String) : Except String (List UnSpent) :=
  match env.rpcListunspent address anchor with
  | .error e => .error e
  | .ok utxos =>
    .ok (utxos.map fun u =>
      { TxID := u.1, Vout := byte u.2.1, Amount := fromAmount env u.2.2 })

/-- Loop over the pool transactions in `Client.getUTXOsInPool`. -/
def poolLoop (env : Env) : List String → List UTXOinPool → Except String (List UTXOinPool)
  | [], ret => .ok ret
  | txid :: txs, ret =>
    match env.rpcGettransaction txid with
    | .error e => .error e
    | .ok vins =>
      poolLoop env txs (ret ++ vins.map fun i => { TxID := i.1, Vout := byte i.2 })

/-- Method `Client.getUTXOsInPool()`. -/
def getUTXOsInPool (env : Env) : Except String (List UTXOinPool) :=
  match env.rpcGettxpool with
  | .error e => .error e
  | .ok none => .ok []
  | .ok (some txs) => poolLoop env txs []

/-- Function `isUnspentAlreadyInPool(utxos, utxo)`. -/
def isUnspentAlreadyInPool : List UTXOinPool → UnSpent → Bool
  | [], _ => false
  | v :: rest, utxo =>
    if v.TxID = utxo.TxID ∧ v.Vout = utxo.Vout then true
    else isUnspentAlreadyInPool rest utxo

/-! ## `tx_decode.go`: building a transaction -/

/-- Result of a call that mutates `*rawTx`: the final record, the returned error
(`none` for `nil`) and the collaborator calls made, in order. -/
structure BuildResult where
  rawTx : RawTransaction
  err : Option Error
  calls : List Call
deriving DecidableEq, Repr

/-- Comparison handed to `sort.Slice`: `a[i].Balance.Cmp(a[j].Balance) >= 0`. -/
def sortLess (x y : AddrBalance) : Bool := decide (x.Balance ≥ y.Balance)

/-- Inner loop of the library's `insertionSortLessFunc`: the element `x` enters at the
right end of a sorted run and is swapped leftwards while `less(j, j-1)` holds.  The
run is given, and returned, from right to left. -/
def bubbleLeft (x : AddrBalance) : List AddrBalance → List AddrBalance
  | [] => [x]
  | y :: ys => if sortLess x y then y :: bubbleLeft x ys else x :: y :: ys

/-- The library's `insertionSortLessFunc` on the whole slice: the elements enter one
by one, from left to right. -/
def insertionSort (l : List AddrBalance) : List AddrBalance :=
  (l.foldl (fun run x => bubbleLeft x run) []).reverse

/-- Call `sort.Slice(addressesBalanceList, less)`.  On a slice of at most 6 elements
every release of the library runs plain insertion sort, which `insertionSort`
follows.  On a longer slice the algorithm depends on the release (a shell pass
before the insertion sort, quicksort, pattern-defeating quicksort), and with a
comparison that is not a strict order its result is only known to be a
rearrangement of the slice: it is the collaborator `Env.sortLonger`. -/
def sortSlice (env : Env) (l : List AddrBalance) : List AddrBalance :=
  if l.length ≤ 6 then insertionSort l else env.sortLonger l

/-- Loop of lines 115-124: one `getBalance` per address, recording the ordinal. -/
def balanceLoop (env : Env) (anchor : String) :
    List Address → Nat → List AddrBalance → Except String (List AddrBalance) × List Call
  | [], _, acc => (.ok acc, [])
  | addr :: rest, i, acc =>
    match getBalance env addr.Address anchor with
    | .error e => (.error e, [Call.getBalance addr.Address])
    | .ok balance =>
      let r := balanceLoop env anchor rest (i + 1) (acc ++ [{ balance with index := i }])
      (r.1, Call.getBalance addr.Address :: r.2)

/-- Loop `for k, v := range rawTx.To { ...; break }`: the first entry in iteration
order, or two empty strings for an empty map. -/
def firstTo : List (String × String) → String × String
  | [] => ("", "")
  | (k, v) :: _ => (k, v)

/-- The fee of lines 130-135 and 381-386. -/
def feeOf (env : Env) (feeRate : String) : Nat :=
  if feeRate.length ≠ 0 then fromAmount env feeRate else uint64 env.FixedFee

/-- The loop of lines 155-158: the sum of all balances. -/
def totalBalance (l : List AddrBalance) : Int :=
  l.foldl (fun total b => total + b.Balance) 0

/-- Inner loop of lines 183-199 over the unspent outputs of one address.  Returns the
accumulated `tmp` when the running sum reaches `amount` (the `break`), and `none`
when the listing ends first. -/
def scanUtxos (pool : List UTXOinPool) (amount : Int) :
    List UnSpent → List Vin → Int → Option (List Vin)
  | [], _, _ => none
  | utxo :: rest, tmp, balanceSum =>
    if isUnspentAlreadyInPool pool utxo then scanUtxos pool amount rest tmp balanceSum
    else
      let tmp1 := tmp ++ [{ TxID := utxo.TxID, Vout := utxo.Vout }]
      let balanceSum1 := balanceSum + int64 utxo.Amount
      if balanceSum1 ≥ amount then some tmp1 else scanUtxos pool amount rest tmp1 balanceSum1

/-- The variable `utxos` after line 177: the answer of `listUnnSpent`, or the nil
slice when the lookup failed (lines 178-180 build an error and drop it). -/
def utxosOf (env : Env) (address anchor : String) : List UnSpent :=
  match listUnnSpent env address anchor with
  | .ok u => u
  | .error _ => []

/-- The variable `utxosInPool` after line 167: the answer of `getUTXOsInPool`, or the
nil slice when the lookup failed (lines 168-170 build an error and drop it). -/
def poolOf (env : Env) : List UTXOinPool :=
  match getUTXOsInPool env with
  | .ok p => p
  | .error _ => []

/-- Outer loop of lines 175-204 over the funded candidates, on the variables `from`
and `vins`. -/
def selectLoop (env : Env) (anchor : String) (pool : List UTXOinPool) (amount : Int) :
    List AddrBalance → String → List Vin → String × List Vin × List Call
  | [], src, vins => (src, vins, [])
  | enoughBalance :: rest, src, vins =>
    let utxos := utxosOf env enoughBalance.Address anchor
    let st : String × List Vin := match scanUtxos pool amount utxos [] 0 with
      | some tmp => (enoughBalance.Address, vins ++ tmp)
      | none => (src, vins)
    if st.2.length > 0 then (st.1, st.2, [Call.listUnnSpent enoughBalance.Address])
    else
      let r := selectLoop env anchor pool amount rest st.1 st.2
      (r.1, r.2.1, Call.listUnnSpent enoughBalance.Address :: r.2.2)

/-- Assignment `m[k] = v` on a Go map. -/
def mapSet {β : Type} : List (String × β) → String → β → List (String × β)
  | [], k, v => [(k, v)]
  | (k1, v1) :: rest, k, v =>
    if k1 = k then (k, v) :: rest else (k1, v1) :: mapSet rest k v

/-- Lines 99-124 of `CreateBBCRawTransaction`: the address list, the anchor, and one
balance per address.  Returns the anchor and the queried balances, or the error
that the method returns from these lines. -/
def queryBalances (env : Env) (rawTx : RawTransaction) :
    Except Error (String × List AddrBalance) × List Call :=
  let c1 := [Call.GetAddressList 0 (-1) rawTx.AccountID]
  match env.GetAddressList 0 (-1) rawTx.AccountID with
  | .error e => (.error (.propagated e), c1)
  | .ok addresses =>
  if addresses.length = 0 then (.error (.accountNotAddress rawTx.AccountID), c1) else
  let c2 := c1 ++ [Call.getAnchor]
  match env.getAnchor with
  | .error _ => (.error .failToGetAnchor, c2)
  | .ok anchor =>
  let bl := balanceLoop env anchor addresses 0 []
  match bl.1 with
  | .error e => (.error (.propagated e), c2 ++ bl.2)
  | .ok queried => (.ok (anchor, queried), c2 ++ bl.2)

/-- The big integer `amount` of lines 144-145: the payment plus the fee. -/
def neededAmount (env : Env) (rawTx : RawTransaction) : Int :=
  int64 (fromAmount env (firstTo rawTx.To).2) + int64 (feeOf env rawTx.FeeRate)

/-- Loop of lines 147-152: the balances that cover `amount` alone, in list order. -/
def enoughBalances (amount : Int) (l : List AddrBalance) : List AddrBalance :=
  l.filter fun b => decide (b.Balance ≥ amount)

/-- Method `TransactionDecoder.CreateBBCRawTransaction(wrapper, rawTx)`. -/
def CreateBBCRawTransaction (env : Env) (rawTx : RawTransaction) : BuildResult :=
  match queryBalances env rawTx with
  | (.error e, c3) => ⟨rawTx, some e, c3⟩
  | (.ok (anchor, queried), c3) =>
  let addressesBalanceList := sortSlice env queried
  let fee := feeOf env rawTx.FeeRate
  let toAddr := (firstTo rawTx.To).1
  let amountStr := (firstTo rawTx.To).2
  let amount : Int := neededAmount env rawTx
  let enoughBalanceList := enoughBalances amount addressesBalanceList
  if enoughBalanceList.length = 0 then
    if totalBalance addressesBalanceList ≥ amount then
      ⟨rawTx, some (.cannotSendInOneTransaction amountStr), c3⟩
    else
      ⟨rawTx, some (.balanceNotEnough amountStr), c3⟩
  else
  let utxosInPool := poolOf env
  let sel := selectLoop env anchor utxosInPool amount enoughBalanceList "" []
  let src := sel.1
  let vins := sel.2.1
  let c4 := c3 ++ [Call.getUTXOsInPool] ++ sel.2.2
  -- lines 206-208: for empty `vins` an error is built and dropped
  let rawTx1 := { rawTx with
    TxFrom := [src], TxTo := [toAddr], TxAmount := amountStr,
    Fees := env.convertToAmount fee, FeeRate := env.convertToAmount fee }
  let sendamount := fromAmount env amountStr
  let c5 := c4 ++ [Call.CreateEmptyTransactionAndHash vins toAddr sendamount fee]
  match env.CreateEmptyTransactionAndHash 0 anchor vins toAddr sendamount fee rawTx.memo with
  | .error e => ⟨rawTx1, some (.hashSignFailed e), c5⟩
  | .ok (emptyTrans, hash) =>
  let rawTx2 := { rawTx1 with RawHex := emptyTrans, Vins := vins }
  let c6 := c5 ++ [Call.GetAddress src]
  match env.GetAddress src with
  | .error e => ⟨rawTx2, some (.propagated e), c6⟩
  | .ok addr =>
  let signature : KeySignature :=
    { EccType := env.CurveType, Nonce := "", Address := addr, Message := hash, Signature := "" }
  ⟨{ rawTx2 with
      Signatures := mapSet rawTx2.Signatures rawTx.AccountID [signature],
      FeeRate := toString (int64 fee),
      IsBuilt := true }, none, c6⟩

/-- Method `TransactionDecoder.CreateRawTransaction(wrapper, rawTx)`. -/
def CreateRawTransaction (env : Env) (rawTx : RawTransaction) : BuildResult :=
  if rawTx.IsContract then ⟨rawTx, some (.contractNotFound rawTx.AccountID), []⟩
  else CreateBBCRawTransaction env rawTx

/-! ## `tx_decode.go`: summary (consolidation) transactions -/

/-- Result of the summary builders: the returned slice (`none` for `nil`), the
returned error and the collaborator calls made, in order. -/
structure SummaryResult where
  rawTxs : Option (List RawTransaction)
  err : Option Error
  calls : List Call
deriving DecidableEq, Repr

/-- Method `TransactionDecoder.createRawTransaction(wrapper, rawTx, addrBalance, fee,
vins)`. -/
def createRawTransaction (env : Env) (rawTx : RawTransaction) (addrBalance : Balance)
    (fee : Nat) (vins : List Vin) : BuildResult :=
  let toAddr := (firstTo rawTx.To).1
  let amountStr := (firstTo rawTx.To).2
  let src := addrBalance.Address
  let c1 := [Call.GetAddress src]
  match env.GetAddress src with
  | .error e => ⟨rawTx, some (.propagated e), c1⟩
  | .ok fromAddr =>
  let rawTx1 := { rawTx with
    TxFrom := [src], TxTo := [toAddr], TxAmount := amountStr,
    Fees := env.convertToAmount fee, FeeRate := env.convertToAmount fee }
  let c2 := c1 ++ [Call.getAnchor]
  match env.getAnchor with
  | .error _ => ⟨rawTx1, some .failToGetAnchor, c2⟩
  | .ok anchor =>
  let sendamount := fromAmount env amountStr
  let c3 := c2 ++ [Call.CreateEmptyTransactionAndHash vins toAddr sendamount fee]
  match env.CreateEmptyTransactionAndHash 0 anchor vins toAddr sendamount fee rawTx.memo with
  | .error e => ⟨rawTx1, some (.propagated e), c3⟩
  | .ok (emptyTrans, hash) =>
  let rawTx2 := { rawTx1 with RawHex := emptyTrans, Vins := vins }
  let signature : KeySignature :=
    { EccType := env.CurveType, Nonce := "", Address := fromAddr, Message := hash,
      Signature := "" }
  ⟨{ rawTx2 with
      Signatures := mapSet rawTx2.Signatures rawTx.AccountID [signature],
      FeeRate := toString (int64 fee),
      IsBuilt := true }, none, c3⟩

/-- Loop of lines 416-427: every unspent output that is not in the pool becomes an
input, in listing order. -/
def collectVins (pool : List UTXOinPool) : List UnSpent → List Vin → List Vin
  | [], vins => vins
  | utxo :: rest, vins =>
    if isUnspentAlreadyInPool pool utxo then collectVins pool rest vins
    else collectVins pool rest (vins ++ [{ TxID := utxo.TxID, Vout := utxo.Vout }])

/-- The record `&openwallet.RawTransaction{Coin, Account, To, Required: 1}` of lines
455-462; the other fields hold their zero values. -/
def newSummaryRawTx (sumRawTx : SummaryRawTransaction) (sumAmount : String) : RawTransaction :=
  { IsContract := sumRawTx.IsContract, AccountID := sumRawTx.AccountID,
    To := [(sumRawTx.SummaryAddress, sumAmount)], FeeRate := "", memo := "", Required := 1,
    TxFrom := [], TxTo := [], TxAmount := "", Fees := "", RawHex := "", Vins := [],
    Signatures := [], IsBuilt := false, IsCompleted := false, IsSubmit := false, TxID := "" }

/-- Loop of lines 393-477 over `addrBalanceArray`, on the variable `rawTxArray`. -/
def summaryLoop (env : Env) (sumRawTx : SummaryRawTransaction) (minTransfer retainedBalance : Int)
    (feeInt : Nat) (anchor : String) : List Balance → List RawTransaction → SummaryResult
  | [], rawTxArray => ⟨some rawTxArray, none, []⟩
  | addrBalance :: rest, rawTxArray =>
    let addrBalance_BI : Int := int64 (fromAmount env addrBalance.Balance)
    if addrBalance_BI = 0 ∨ addrBalance_BI < minTransfer then
      summaryLoop env sumRawTx minTransfer retainedBalance feeInt anchor rest rawTxArray
    else
    let c1 := [Call.listUnnSpent addrBalance.Address]
    match listUnnSpent env addrBalance.Address anchor with
    | .error _ => ⟨none, some (.failedUnspentRecord addrBalance.Address), c1⟩
    | .ok utxos =>
    let c2 := c1 ++ [Call.getUTXOsInPool]
    match getUTXOsInPool env with
    | .error _ => ⟨none, some .failedTxPool, c2⟩
    | .ok utxosInPool =>
    let vins := collectVins utxosInPool utxos []
    if vins.length = 0 then ⟨none, some (.unconfirmedTransaction addrBalance.Address), c2⟩ else
    let fee : Int := int64 feeInt
    let sumAmount_BI : Int := addrBalance_BI - retainedBalance - fee
    if sumAmount_BI ≤ 0 then
      let r := summaryLoop env sumRawTx minTransfer retainedBalance feeInt anchor rest rawTxArray
      ⟨r.rawTxs, r.err, c2 ++ r.calls⟩
    else
    let sumAmount := env.convertToAmount (bigUint64 sumAmount_BI)
    let created := createRawTransaction env (newSummaryRawTx sumRawTx sumAmount) addrBalance
      feeInt vins
    match created.err with
    | some createErr => ⟨none, some createErr, c2 ++ created.calls⟩
    | none =>
      let r := summaryLoop env sumRawTx minTransfer retainedBalance feeInt anchor rest
        (rawTxArray ++ [created.rawTx])
      ⟨r.rawTxs, r.err, c2 ++ created.calls ++ r.calls⟩

/-- Method `TransactionDecoder.CreateSimpleSummaryRawTransaction(wrapper, sumRawTx)`. -/
def CreateSimpleSummaryRawTransaction (env : Env) (sumRawTx : SummaryRawTransaction) :
    SummaryResult :=
  let accountID := sumRawTx.AccountID
  let minTransfer : Int := int64 (fromAmount env sumRawTx.MinTransfer)
  let retainedBalance : Int := int64 (fromAmount env sumRawTx.RetainedBalance)
  if minTransfer < retainedBalance then ⟨none, some .miniTransferBelowRetained, []⟩ else
  let c1 := [Call.GetAddressList sumRawTx.AddressStartIndex sumRawTx.AddressLimit accountID]
  match env.GetAddressList sumRawTx.AddressStartIndex sumRawTx.AddressLimit accountID with
  | .error e => ⟨none, some (.propagated e), c1⟩
  | .ok addresses =>
  if addresses.length = 0 then ⟨none, some (.haveNotAddresses accountID), c1⟩ else
  let searchAddrs := addresses.map fun address => address.Address
  let c2 := c1 ++ [Call.GetBalanceByAddress searchAddrs]
  match env.GetBalanceByAddress searchAddrs with
  | .error e => ⟨none, some (.propagated e), c2⟩
  | .ok addrBalanceArray =>
  let feeInt := feeOf env sumRawTx.FeeRate
  let c3 := c2 ++ [Call.getAnchor]
  match env.getAnchor with
  | .error _ => ⟨none, some .failToGetAnchor, c3⟩
  | .ok anchor =>
  let r := summaryLoop env sumRawTx minTransfer retainedBalance feeInt anchor addrBalanceArray []
  ⟨r.rawTxs, r.err, c3 ++ r.calls⟩

/-- Method `TransactionDecoder.CreateSummaryRawTransaction(wrapper, sumRawTx)`. -/
def CreateSummaryRawTransaction (env : Env) (sumRawTx : SummaryRawTransaction) : SummaryResult :=
  if sumRawTx.IsContract then ⟨none, some (.contractNotFound sumRawTx.AccountID), []⟩
  else CreateSimpleSummaryRawTransaction env sumRawTx

/-- Type `openwallet.RawTransactionWithError`. -/
structure RawTransactionWithError where
  RawTx : RawTransaction
  Error : Option Error
deriving DecidableEq, Repr

/-- Result of `CreateSummaryRawTransactionWithError`: the returned slice (`none` for
`nil`), the returned error and the collaborator calls made. -/
structure SummaryWithErrorResult where
  entries : Option (List RawTransactionWithError)
  err : Option Error
  calls : List Call
deriving DecidableEq, Repr

/-- Method `TransactionDecoder.CreateSummaryRawTransactionWithError(wrapper, sumRawTx)`. -/
def CreateSummaryRawTransactionWithError (env : Env) (sumRawTx : SummaryRawTransaction) :
    SummaryWithErrorResult :=
  let r := CreateSummaryRawTransaction env sumRawTx
  match r.err with
  | some err => ⟨none, some err, r.calls⟩
  | none =>
    ⟨some ((r.rawTxs.getD []).map fun tx => { RawTx := tx, Error := none }), none, r.calls⟩

/-! ## `tx_decode.go`: signing, verifying and submitting -/

/-- Read `m[k]` on a Go map: `none` stands for the nil value of a missing key. -/
def mapGet {β : Type} : List (String × β) → String → Option β
  | [], _ => none
  | (k1, v1) :: rest, k => if k1 = k then some v1 else mapGet rest k

/-- Loop of lines 263-289 over the key signatures, which are pointers: `done` holds
the records already signed.  On an error the records signed so far stay signed,
the current one and the later ones are as they were. -/
def signLoop (env : Env) (key : String) :
    List KeySignature → List KeySignature → List KeySignature × Option Error × List Call
  | [], done => (done, none, [])
  | keySignature :: rest, done =>
    let c1 := [Call.DerivedKeyWithPath keySignature.Address.HDPath keySignature.EccType,
      Call.GetPrivateKeyBytes]
    -- line 265: the error of the derivation is overwritten by line 266
    let childKey : Option String :=
      match env.DerivedKeyWithPath key keySignature.Address.HDPath keySignature.EccType with
      | .ok k => some k
      | .error _ => none
    match env.GetPrivateKeyBytes childKey with
    | .error e => (done ++ keySignature :: rest, some (.propagated e), c1)
    | .ok keyBytes =>
    let c2 := c1 ++ [Call.SignTransactionHash keySignature.Message]
    match env.SignTransactionHash keySignature.Message keyBytes with
    | .error e => (done ++ keySignature :: rest, some (.hashSignFailed e), c2)
    | .ok signature =>
      let r := signLoop env key rest (done ++ [{ keySignature with Signature := signature }])
      (r.1, r.2.1, c2 ++ r.2.2)

/-- Method `TransactionDecoder.SignBBCRawTransaction(wrapper, rawTx)`.  A nil
`rawTx.Signatures` is taken as the empty map. -/
def SignBBCRawTransaction (env : Env) (rawTx : RawTransaction) : BuildResult :=
  let c1 := [Call.HDKey]
  match env.HDKey with
  | .error _ => ⟨rawTx, none, c1⟩
  | .ok key =>
  match mapGet rawTx.Signatures rawTx.AccountID with
  | none => ⟨{ rawTx with Signatures := mapSet rawTx.Signatures rawTx.AccountID [] }, none, c1⟩
  | some keySignatures =>
    let r := signLoop env key keySignatures []
    ⟨{ rawTx with Signatures := mapSet rawTx.Signatures rawTx.AccountID r.1 }, r.2.1,
      c1 ++ r.2.2⟩

/-- Method `TransactionDecoder.SignRawTransaction(wrapper, rawTx)`. -/
def SignRawTransaction (env : Env) (rawTx : RawTransaction) : BuildResult :=
  SignBBCRawTransaction env rawTx

/-- Loops of lines 307-317: the signature and the public key of the last key signature
in iteration order, or two empty strings when there is none. -/
def lastSignature (signatures : List (String × List KeySignature)) : String × String :=
  signatures.foldl
    (fun acc entry => entry.2.foldl (fun _ ks => (ks.Signature, ks.Address.PublicKey)) acc)
    ("", "")

/-- Method `TransactionDecoder.VerifyBBCRawTransaction(wrapper, rawTx)`. -/
def VerifyBBCRawTransaction (env : Env) (rawTx : RawTransaction) : BuildResult :=
  let emptyTrans := rawTx.RawHex
  let signature := (lastSignature rawTx.Signatures).1
  let pubkey := (lastSignature rawTx.Signatures).2
  let pubBytes := env.DecodeString pubkey
  let c := [Call.VerifyAndCombineTransaction emptyTrans signature pubBytes]
  let r := env.VerifyAndCombineTransaction emptyTrans signature pubBytes
  if r.1 then ⟨{ rawTx with IsCompleted := true, RawHex := r.2 }, none, c⟩
  else ⟨{ rawTx with IsCompleted := false }, none, c⟩

/-- Method `TransactionDecoder.VerifyRawTransaction(wrapper, rawTx)`. -/
def VerifyRawTransaction (env : Env) (rawTx : RawTransaction) : BuildResult :=
  VerifyBBCRawTransaction env rawTx

/-- Result of `SubmitRawTransaction`: the final `*rawTx`, the returned transaction
(`none` for `nil`), the returned error and the collaborator calls made. -/
structure SubmitResult where
  rawTx : RawTransaction
  tx : Option Transaction
  err : Option Error
  calls : List Call
deriving DecidableEq, Repr

/-- Method `TransactionDecoder.SubmitRawTransaction(wrapper, rawTx)`. -/
def SubmitRawTransaction (env : Env) (rawTx : RawTransaction) : SubmitResult :=
  if rawTx.RawHex.length = 0 then ⟨rawTx, none, some .hexIsEmpty, []⟩ else
  if !rawTx.IsCompleted then ⟨rawTx, none, some .notCompleted, []⟩ else
  let c := [Call.SendRawTransaction rawTx.RawHex]
  match env.SendRawTransaction rawTx.RawHex with
  | .error e => ⟨rawTx, none, some (.propagated e), c⟩
  | .ok txid =>
  let rawTx1 := { rawTx with TxID := txid, IsSubmit := true }
  let tx : Transaction :=
    { From := rawTx1.TxFrom, To := rawTx1.TxTo, Amount := rawTx1.TxAmount,
      IsContract := rawTx1.IsContract, TxID := rawTx1.TxID, Decimal := env.Decimal,
      AccountID := rawTx1.AccountID, Fees := rawTx1.Fees, SubmitTime := env.now, WxID := "" }
  ⟨rawTx1, some { tx with WxID := env.GenTransactionWxID tx }, none, c⟩

/-! ## Vocabulary of the statements -/

/-- The input that spends the unspent output `u`. -/
def vinOf (u : UnSpent) : Vin := { TxID := u.TxID, Vout := u.Vout }

/-- The unspent outputs of a listing that are not in the pool, in listing order. -/
def nonPending (pool : List UTXOinPool) (utxos : List UnSpent) : List UnSpent :=
  utxos.filter fun u => !isUnspentAlreadyInPool pool u

/-- Sum of the amounts of a list of unspent outputs, as the decoder adds them
(line 192). -/
def amountSum (l : List UnSpent) : Int := (l.map fun u => int64 u.Amount).sum

/-- The scan of lines 183-199 for one candidate, from empty `tmp` and zero sum. -/
def scanOf (env : Env) (anchor : String) (pool : List UTXOinPool) (amount : Int)
    (c : AddrBalance) : Option (List Vin) :=
  scanUtxos pool amount (utxosOf env c.Address anchor) [] 0

/-- The calls `listUnnSpent` made for a list of candidates, in order. -/
def lookupsOf (l : List AddrBalance) : List Call := l.map fun c => Call.listUnnSpent c.Address

/-- The big integer `addrBalance_BI` of line 396. -/
def balanceBI (env : Env) (ab : Balance) : Int := int64 (fromAmount env ab.Balance)

/-- The big integer `minTransfer` of line 352. -/
def minTransferOf (env : Env) (sumRawTx : SummaryRawTransaction) : Int :=
  int64 (fromAmount env sumRawTx.MinTransfer)

/-- The big integer `retainedBalance` of line 353. -/
def retainedOf (env : Env) (sumRawTx : SummaryRawTransaction) : Int :=
  int64 (fromAmount env sumRawTx.RetainedBalance)

/-- What the loop of `CreateSimpleSummaryRawTransaction` requires of an entry
`ab` of the balance array for which it appends the request `tx`. -/
structure IsRequestOf (env : Env) (sumRawTx : SummaryRawTransaction)
    (minTransfer retainedBalance : Int) (feeInt : Nat) (anchor : String)
    (ab : Balance) (tx : RawTransaction) : Prop where
  nonzero : balanceBI env ab ≠ 0
  threshold : minTransfer ≤ balanceBI env ab
  positive : 0 < balanceBI env ab - retainedBalance - int64 feeInt
  source : tx.TxFrom = [ab.Address]
  target : tx.To = [(sumRawTx.SummaryAddress,
    env.convertToAmount (bigUint64 (balanceBI env ab - retainedBalance - int64 feeInt)))]
  inputs : ∃ utxos pool, listUnnSpent env ab.Address anchor = .ok utxos ∧
    getUTXOsInPool env = .ok pool ∧ tx.Vins = (nonPending pool utxos).map vinOf
  built : tx.IsBuilt = true

/-- The order in which `sortSlice` leaves two entries `a` before `b`: larger balance
first and, among equal balances, larger ordinal first. -/
def sortedBefore (a b : AddrBalance) : Prop :=
  b.Balance < a.Balance ∨ (a.Balance = b.Balance ∧ b.index < a.index)

/-- Whether a collaborator call is a `listUnnSpent` lookup. -/
def isUtxoLookup : Call → Bool
  | .listUnnSpent _ => true
  | _ => false

/-- The unspent outputs of a candidate that the selector may spend: its listing
without the outputs found in the pool. -/
def availableOf (env : Env) (anchor : String) (c : AddrBalance) : List UnSpent :=
  nonPending (poolOf env) (utxosOf env c.Address anchor)

/-- No non-empty initial run of `avail` has amounts that sum to `needed` or more. -/
def NoCover (needed : Int) (avail : List UnSpent) : Prop :=
  ∀ j, 0 < j → j ≤ avail.length → amountSum (avail.take j) < needed

/-- The inputs `vins` spend the shortest non-empty initial run of `avail` whose
amounts sum to `needed` or more. -/
def IsShortestNonemptyCover (needed : Int) (avail : List UnSpent) (vins : List Vin) : Prop :=
  ∃ k, 0 < k ∧ k ≤ avail.length ∧ vins = (avail.take k).map vinOf ∧
    needed ≤ amountSum (avail.take k) ∧
    ∀ j, 0 < j → j < k → amountSum (avail.take j) < needed

/-- Whether an entry of the balance array passes both `continue` tests of the summary
loop (lines 398 and 443): the balance is not zero and not below the minimum
transfer, and what is left after the retained balance and the fee is positive. -/
def passesChecks (env : Env) (minTransfer retainedBalance : Int) (feeInt : Nat)
    (ab : Balance) : Bool :=
  decide (balanceBI env ab ≠ 0 ∧ minTransfer ≤ balanceBI env ab ∧
    0 < balanceBI env ab - retainedBalance - int64 feeInt)

/-- The external check as `VerifyBBCRawTransaction` calls it: on the raw hex, the last
signature and the decoded last public key of the request. -/
def verifyCheck (env : Env) (rawTx : RawTransaction) : Bool × String :=
  env.VerifyAndCombineTransaction rawTx.RawHex (lastSignature rawTx.Signatures).1
    (env.DecodeString (lastSignature rawTx.Signatures).2)

/-! ## Example inputs -/

/-- Decimal reading of a string of digits. -/
def parseUnits (s : String) : Nat := s.data.foldl (fun n c => 10 * n + (c.toNat - 48)) 0

/-- An account with two addresses: `A` holds 100 in three outputs, the first of which
is spent by a pool transaction, and `B` holds 50.  Amount strings are whole base
units, the fixed fee is 5, the encoder and the wallet accept every request for a
known address, the wallet's key signs every hash `h` as `sig:h`, and the check
passes for the signature `sig:hash` alone. -/
def exampleEnv : Env where
  convertFromAmount := parseUnits
  convertToAmount := fun n => toString n
  FixedFee := 5
  CurveType := 0
  GetAddressList := fun _ _ _ => .ok [⟨"A", "m/0", "pkA"⟩, ⟨"B", "m/1", "pkB"⟩]
  GetAddress := fun a =>
    if a = "A" then .ok ⟨"A", "m/0", "pkA"⟩
    else if a = "B" then .ok ⟨"B", "m/1", "pkB"⟩
    else .error "address not found"
  GetBalanceByAddress := fun addrs =>
    .ok (addrs.map fun a => ⟨a, if a = "A" then "100" else "50"⟩)
  getAnchor := .ok "genesis"
  rpcGetbalance := fun a =>
    if a = "A" then .ok ["100"] else if a = "B" then .ok ["50"] else .ok []
  rpcListunspent := fun a _ =>
    if a = "A" then .ok [("t0", 0, "10"), ("t1", 0, "60"), ("t2", 1, "30")]
    else if a = "B" then .ok [("t3", 0, "50")]
    else .ok []
  rpcGettxpool := .ok (some ["p1"])
  rpcGettransaction := fun t => if t = "p1" then .ok [("t0", 0)] else .error "no such transaction"
  CreateEmptyTransactionAndHash := fun _ _ _ _ _ _ _ => .ok ("raw", "hash")
  SendRawTransaction := fun _ => .ok "txid"
  Decimal := 6
  now := 1600000000
  GenTransactionWxID := fun tx => tx.TxID
  HDKey := .ok "xprv"
  DerivedKeyWithPath := fun key path _ => .ok (key ++ path)
  GetPrivateKeyBytes := fun childKey =>
    match childKey with
    | some _ => .ok [1]
    | none => .error "nil key"
  SignTransactionHash := fun message _ => .ok ("sig:" ++ message)
  DecodeString := fun s => s.data.map Char.toNat
  VerifyAndCombineTransaction := fun emptyTrans signature _ =>
    if signature = "sig:hash" then (true, emptyTrans ++ signature) else (false, "")
  sortLonger := fun l => l
  sortLonger_perm := fun l => List.Perm.refl l

/-- A request to pay `amount` to `D`, with the configured fee. -/
def payTo (amount : String) : RawTransaction :=
  { IsContract := false, AccountID := "acc", To := [("D", amount)], FeeRate := "", memo := "",
    Required := 1, TxFrom := [], TxTo := [], TxAmount := "", Fees := "", RawHex := "",
    Vins := [], Signatures := [], IsBuilt := false, IsCompleted := false, IsSubmit := false,
    TxID := "" }

/-- A request to sweep the account to `S`. -/
def sweepTo (minTransfer retained : String) : SummaryRawTransaction :=
  { IsContract := false, AccountID := "acc", MinTransfer := minTransfer,
    RetainedBalance := retained, SummaryAddress := "S", FeeRate := "",
    AddressStartIndex := 0, AddressLimit := -1 }

/-- A request to pay nothing to `D` with a zero fee rate. -/
def zeroPay : RawTransaction := { payTo "0" with FeeRate := "0" }

/-- The account of `exampleEnv` while a pool transaction spends every output of `A`. -/
def pendingEnv : Env :=
  { exampleEnv with
    rpcGettransaction := fun t =>
      if t = "p1" then .ok [("t0", 0), ("t1", 0), ("t2", 1)] else .error "no such transaction" }

/-- The account of `exampleEnv` for a sweep with fee 1: `A` holds 20 and `B` holds 5. -/
def sweepEnv : Env :=
  { exampleEnv with
    FixedFee := 1
    GetBalanceByAddress := fun addrs => .ok (addrs.map fun a => ⟨a, if a = "A" then "20" else "5"⟩) }

/-- The account of `exampleEnv` with a configured fee of `2^63` base units, `A` holding
`2^63 - 1` and `B` holding nothing. -/
def wrapEnv : Env :=
  { exampleEnv with
    FixedFee := 2 ^ 63
    GetBalanceByAddress := fun addrs =>
      .ok (addrs.map fun a => ⟨a, if a = "A" then "9223372036854775807" else "0"⟩) }

/-- The transaction that `exampleEnv` builds for a payment of 80 to `D`. -/
def builtTx : RawTransaction := (CreateBBCRawTransaction exampleEnv (payTo "80")).rawTx

/-- The transaction `builtTx` after signing in `exampleEnv`. -/
def signedTx : RawTransaction := (SignBBCRawTransaction exampleEnv builtTx).rawTx

/-- The environment `exampleEnv` with a wallet that cannot hand out its key. -/
def lockedEnv : Env :=
  { exampleEnv with HDKey := .error "wallet is locked" }

/-- The environment `exampleEnv` with a node whose `gettxpool` call fails. -/
def poolDownEnv : Env :=
  { exampleEnv with rpcGettxpool := .error "timeout" }

/-- The environment `exampleEnv` with a node whose `listunspent` call fails for `A`. -/
def listDownEnv : Env :=
  { exampleEnv with
    rpcListunspent := fun a _ =>
      if a = "A" then .error "timeout"
      else if a = "B" then .ok [("t3", 0, "50")]
      else .ok [] }

/-- The transaction `signedTx` after verification in `exampleEnv`. -/
def verifiedTx : RawTransaction := (VerifyBBCRawTransaction exampleEnv signedTx).rawTx

/-! ## Vocabulary of the statements, in base units -/

/-- The balance that the node reports for an address, in base units, before the
signed cast of `getBalance`. -/
def availOf (env : Env) (address : String) : Nat :=
  match env.rpcGetbalance address with
  | .ok (avail :: _) => fromAmount env avail
  | _ => 0

/-- Amount plus fee of a payment request, in base units. -/
def amountPlusFee (env : Env) (rawTx : RawTransaction) : Nat :=
  fromAmount env (firstTo rawTx.To).2 + feeOf env rawTx.FeeRate

/-- Sum of the amounts of a list of unspent outputs, in base units. -/
def unitsSum (l : List UnSpent) : Nat := (l.map fun u => u.Amount).sum

/-- The entries of a balance list whose reported balance is `needed` or more, in list
order. -/
def fundedOf (env : Env) (needed : Nat) (l : List AddrBalance) : List AddrBalance :=
  l.filter fun b => decide (needed ≤ availOf env b.Address)

/-- The free outputs `avail` of an address can pay `needed` base units: there is at
least one, and together they hold `needed` base units or more. -/
def CanPay (needed : Nat) (avail : List UnSpent) : Prop :=
  avail ≠ [] ∧ needed ≤ unitsSum avail

/-- The inputs `vins` spend the shortest initial run of `avail` that holds `needed`
base units or more. -/
def IsShortestCoverUnits (needed : Nat) (avail : List UnSpent) (vins : List Vin) : Prop :=
  ∃ k, k ≤ avail.length ∧ vins = (avail.take k).map vinOf ∧
    needed ≤ unitsSum (avail.take k) ∧
    ∀ j, j < k → unitsSum (avail.take j) < needed

/-- The inputs `vins` spend the shortest non-empty initial run of `avail` that holds
`needed` base units or more. -/
def IsShortestNonemptyCoverUnits (needed : Nat) (avail : List UnSpent) (vins : List Vin) :
    Prop :=
  ∃ k, 0 < k ∧ k ≤ avail.length ∧ vins = (avail.take k).map vinOf ∧
    needed ≤ unitsSum (avail.take k) ∧
    ∀ j, 0 < j → j < k → unitsSum (avail.take j) < needed

/-! ## Example inputs at the signed boundary -/

/-- The account of `exampleEnv` with a configured fee of `2^63` base units. -/
def highFeeEnv : Env :=
  { exampleEnv with FixedFee := 2 ^ 63 }

/-- The account of `exampleEnv` with an empty pool, so that all 100 units of `A` are
free, and an encoder that refuses an empty input list. -/
def strictEnv : Env :=
  { exampleEnv with
    rpcGettxpool := .ok none
    CreateEmptyTransactionAndHash := fun _ _ vins _ _ _ _ =>
      if vins.length = 0 then .error "Miss input!" else .ok ("raw", "hash") }

/-- An account with an empty pool whose address `A` holds exactly `2^63` base units in
one output, and whose address `B` holds 50. -/
def brimEnv : Env :=
  { exampleEnv with
    rpcGetbalance := fun a =>
      if a = "A" then .ok ["9223372036854775808"] else if a = "B" then .ok ["50"] else .ok []
    rpcListunspent := fun a _ =>
      if a = "A" then .ok [("t1", 0, "9223372036854775808")]
      else if a = "B" then .ok [("t3", 0, "50")]
      else .ok []
    rpcGettxpool := .ok none }

/-! ## Theorems -/

theorem isUnspentAlreadyInPool_false_iff (pool : List UTXOinPool) (u : UnSpent) :
    isUnspentAlreadyInPool pool u = false ↔
      ∀ p ∈ pool, ¬ (p.TxID = u.TxID ∧ p.Vout = u.Vout) := by
  induction pool with
  | nil => simp [isUnspentAlreadyInPool]
  | cons v rest ih =>
    by_cases h : v.TxID = u.TxID ∧ v.Vout = u.Vout
    · simp [isUnspentAlreadyInPool, h]
    · simp only [isUnspentAlreadyInPool, h, if_false, ih, List.mem_cons, forall_eq_or_imp,
        not_false_eq_true, true_and]

theorem nonPending_cons_pending {pool : List UTXOinPool} {u : UnSpent} (rest : List UnSpent)
    (h : isUnspentAlreadyInPool pool u = true) :
    nonPending pool (u :: rest) = nonPending pool rest := by
  simp [nonPending, h]

theorem nonPending_cons_free {pool : List UTXOinPool} {u : UnSpent} (rest : List UnSpent)
    (h : isUnspentAlreadyInPool pool u = false) :
    nonPending pool (u :: rest) = u :: nonPending pool rest := by
  simp [nonPending, h]

theorem amountSum_cons (u : UnSpent) (l : List UnSpent) :
    amountSum (u :: l) = int64 u.Amount + amountSum l := by
  simp [amountSum]

theorem scanUtxos_some (pool : List UTXOinPool) (amount : Int) :
    ∀ (utxos : List UnSpent) (tmp : List Vin) (s : Int) (r : List Vin),
      scanUtxos pool amount utxos tmp s = some r →
      ∃ k, 0 < k ∧ k ≤ (nonPending pool utxos).length ∧
        r = tmp ++ ((nonPending pool utxos).take k).map vinOf ∧
        amount ≤ s + amountSum ((nonPending pool utxos).take k) ∧
        ∀ j, 0 < j → j < k → s + amountSum ((nonPending pool utxos).take j) < amount := by
  intro utxos
  induction utxos with
  | nil => intro tmp s r h; simp [scanUtxos] at h
  | cons u rest ih =>
    intro tmp s r h
    by_cases hp : isUnspentAlreadyInPool pool u = true
    · rw [nonPending_cons_pending rest hp]
      simp only [scanUtxos, hp, if_true] at h
      exact ih tmp s r h
    · have hp : isUnspentAlreadyInPool pool u = false := by simpa using hp
      rw [nonPending_cons_free rest hp]
      simp only [scanUtxos, hp] at h
      by_cases hs : s + int64 u.Amount ≥ amount
      · simp only [hs, if_true, Bool.false_eq_true, if_false, Option.some.injEq] at h
        refine ⟨1, by omega, by simp, ?_, ?_, ?_⟩
        · simp [← h, vinOf]
        · simpa [amountSum] using hs
        · intro j h1 h2; omega
      · simp only [hs, if_false, Bool.false_eq_true] at h
        obtain ⟨k, hk0, hk1, hr, hsum, hmin⟩ := ih _ _ r h
        refine ⟨k + 1, by omega, by simpa using hk1, ?_, ?_, ?_⟩
        · simp [hr, vinOf]
        · rw [List.take_succ_cons, amountSum_cons]; omega
        · intro j hj0 hj1
          obtain ⟨j, rfl⟩ : ∃ i, j = i + 1 := ⟨j - 1, by omega⟩
          rw [List.take_succ_cons, amountSum_cons]
          by_cases hj : j = 0
          · subst hj; simp [amountSum]; omega
          · have := hmin j (by omega) (by omega); omega

theorem scanUtxos_none (pool : List UTXOinPool) (amount : Int) :
    ∀ (utxos : List UnSpent) (tmp : List Vin) (s : Int),
      scanUtxos pool amount utxos tmp s = none →
      ∀ j, 0 < j → j ≤ (nonPending pool utxos).length →
        s + amountSum ((nonPending pool utxos).take j) < amount := by
  intro utxos
  induction utxos with
  | nil => intro tmp s _ j h0 h1; simp [nonPending] at h1; omega
  | cons u rest ih =>
    intro tmp s h
    by_cases hp : isUnspentAlreadyInPool pool u = true
    · rw [nonPending_cons_pending rest hp]
      simp only [scanUtxos, hp, if_true] at h
      exact ih tmp s h
    · have hp : isUnspentAlreadyInPool pool u = false := by simpa using hp
      rw [nonPending_cons_free rest hp]
      simp only [scanUtxos, hp] at h
      by_cases hs : s + int64 u.Amount ≥ amount
      · simp [hs] at h
      · simp only [hs, if_false, Bool.false_eq_true] at h
        intro j hj0 hj1
        obtain ⟨j, rfl⟩ : ∃ i, j = i + 1 := ⟨j - 1, by omega⟩
        rw [List.take_succ_cons, amountSum_cons]
        by_cases hj : j = 0
        · subst hj; simp [amountSum]; omega
        · have := ih _ _ h j (by omega) (by simpa using hj1); omega

theorem scanOf_some_ne_nil {env : Env} {anchor : String} {pool : List UTXOinPool} {amount : Int}
    {c : AddrBalance} {tmp : List Vin} (h : scanOf env anchor pool amount c = some tmp) :
    tmp ≠ [] := by
  obtain ⟨k, hk0, hk1, hr, -, -⟩ := scanUtxos_some pool amount _ _ _ _ h
  intro hnil
  have hlen := congrArg List.length hr
  rw [hnil] at hlen
  simp at hlen
  omega

theorem selectLoop_cons (env : Env) (anchor : String) (pool : List UTXOinPool) (amount : Int)
    (c : AddrBalance) (rest : List AddrBalance) (src : String) :
    selectLoop env anchor pool amount (c :: rest) src [] =
      match scanOf env anchor pool amount c with
      | some tmp =>
        if tmp.length > 0 then (c.Address, tmp, [Call.listUnnSpent c.Address])
        else
          ((selectLoop env anchor pool amount rest c.Address tmp).1,
           (selectLoop env anchor pool amount rest c.Address tmp).2.1,
           Call.listUnnSpent c.Address :: (selectLoop env anchor pool amount rest c.Address tmp).2.2)
      | none =>
          ((selectLoop env anchor pool amount rest src []).1,
           (selectLoop env anchor pool amount rest src []).2.1,
           Call.listUnnSpent c.Address :: (selectLoop env anchor pool amount rest src []).2.2) := by
  simp only [selectLoop, scanOf]
  cases scanUtxos pool amount (utxosOf env c.Address anchor) [] 0 <;> simp

theorem selectLoop_spec (env : Env) (anchor : String) (pool : List UTXOinPool) (amount : Int) :
    ∀ (cands : List AddrBalance) (src : String),
      ((selectLoop env anchor pool amount cands src []).2.1 = [] ∧
        (selectLoop env anchor pool amount cands src []).1 = src ∧
        (selectLoop env anchor pool amount cands src []).2.2 = lookupsOf cands ∧
        ∀ c ∈ cands, scanOf env anchor pool amount c = none) ∨
      (∃ l1 c l2 tmp, cands = l1 ++ c :: l2 ∧
        (∀ b ∈ l1, scanOf env anchor pool amount b = none) ∧
        scanOf env anchor pool amount c = some tmp ∧ tmp ≠ [] ∧
        (selectLoop env anchor pool amount cands src []).2.1 = tmp ∧
        (selectLoop env anchor pool amount cands src []).1 = c.Address ∧
        (selectLoop env anchor pool amount cands src []).2.2 = lookupsOf (l1 ++ [c])) := by
  intro cands
  induction cands with
  | nil => intro src; left; simp [selectLoop, lookupsOf]
  | cons c rest ih =>
    intro src
    rw [selectLoop_cons]
    cases hsc : scanOf env anchor pool amount c with
    | none =>
      simp only
      rcases ih src with ⟨h1, h2, h3, h4⟩ | ⟨l1, d, l2, tmp, h1, h2, h3, h4, h5, h6, h7⟩
      · left
        refine ⟨h1, h2, by simp [h3, lookupsOf], ?_⟩
        intro b hb
        rcases List.mem_cons.mp hb with rfl | hb
        · exact hsc
        · exact h4 b hb
      · right
        refine ⟨c :: l1, d, l2, tmp, by simp [h1], ?_, h3, h4, h5, h6, by simp [h7, lookupsOf]⟩
        intro b hb
        rcases List.mem_cons.mp hb with rfl | hb
        · exact hsc
        · exact h2 b hb
    | some tmp =>
      have hne := scanOf_some_ne_nil hsc
      have hpos : tmp.length > 0 := List.length_pos.mpr hne
      simp only [hpos, if_true]
      right
      exact ⟨[], c, rest, tmp, by simp, by simp, hsc, hne, rfl, rfl, by simp [lookupsOf]⟩

theorem collectVins_eq (pool : List UTXOinPool) :
    ∀ (utxos : List UnSpent) (vins : List Vin),
      collectVins pool utxos vins = vins ++ (nonPending pool utxos).map vinOf := by
  intro utxos
  induction utxos with
  | nil => intro vins; simp [collectVins, nonPending]
  | cons u rest ih =>
    intro vins
    by_cases hp : isUnspentAlreadyInPool pool u = true
    · simp only [collectVins, hp, if_true, ih]
      simp [nonPending, hp]
    · have hp : isUnspentAlreadyInPool pool u = false := by simpa using hp
      simp only [collectVins, hp, ih]
      simp [nonPending, hp, vinOf]

theorem createRawTransaction_ok {env : Env} {rawTx : RawTransaction} {ab : Balance} {fee : Nat}
    {vins : List Vin} (h : (createRawTransaction env rawTx ab fee vins).err = none) :
    (createRawTransaction env rawTx ab fee vins).rawTx.Vins = vins ∧
    (createRawTransaction env rawTx ab fee vins).rawTx.TxFrom = [ab.Address] ∧
    (createRawTransaction env rawTx ab fee vins).rawTx.To = rawTx.To ∧
    (createRawTransaction env rawTx ab fee vins).rawTx.IsBuilt = true := by
  unfold createRawTransaction at h ⊢
  cases hA : env.GetAddress ab.Address with
  | error e => simp [hA] at h
  | ok fromAddr =>
    cases hB : env.getAnchor with
    | error e => simp [hA, hB] at h
    | ok anchor =>
      simp only [hA, hB] at h ⊢
      split at h
      · simp at h
      · simp

theorem createRawTransaction_calls (env : Env) (rawTx : RawTransaction) (ab : Balance) (fee : Nat)
    (vins : List Vin) (a : String) :
    Call.listUnnSpent a ∉ (createRawTransaction env rawTx ab fee vins).calls := by
  unfold createRawTransaction
  cases hA : env.GetAddress ab.Address with
  | error e => simp [hA]
  | ok fromAddr =>
    cases hB : env.getAnchor with
    | error e => simp [hA, hB]
    | ok anchor =>
      simp only [hA, hB]
      split <;> simp

theorem summaryLoop_exact (env : Env) (sumRawTx : SummaryRawTransaction)
    (minTransfer retainedBalance : Int) (feeInt : Nat) (anchor : String) :
    ∀ (balances : List Balance) (acc txs : List RawTransaction),
      (summaryLoop env sumRawTx minTransfer retainedBalance feeInt anchor balances acc).rawTxs
        = some txs →
      ∃ new, txs = acc ++ new ∧
        List.Forall₂ (IsRequestOf env sumRawTx minTransfer retainedBalance feeInt anchor)
          (balances.filter (passesChecks env minTransfer retainedBalance feeInt)) new := by
  intro balances
  induction balances with
  | nil =>
    intro acc txs h
    simp only [summaryLoop, Option.some.injEq] at h
    exact ⟨[], by simp [h], by simp⟩
  | cons ab rest ih =>
    intro acc txs h
    unfold summaryLoop at h
    simp only at h
    split at h
    · rename_i hel
      have hf : passesChecks env minTransfer retainedBalance feeInt ab = false := by
        simp only [passesChecks, balanceBI, decide_eq_false_iff_not]
        rintro ⟨h1, h2, -⟩
        rcases hel with hel | hel
        · exact h1 hel
        · omega
      rw [List.filter_cons_of_neg (by simp [hf])]
      exact ih acc txs h
    · rename_i hel
      split at h
      · simp at h
      · rename_i utxos hu
        split at h
        · simp at h
        · rename_i pool hpool
          split at h
          · simp at h
          · split at h
            · rename_i hpos
              have hf : passesChecks env minTransfer retainedBalance feeInt ab = false := by
                simp only [passesChecks, balanceBI, decide_eq_false_iff_not]
                rintro ⟨-, -, h3⟩
                omega
              rw [List.filter_cons_of_neg (by simp [hf])]
              exact ih acc txs h
            · rename_i hpos
              split at h
              · simp at h
              · rename_i hc
                simp only [not_or, not_lt] at hel
                simp only [not_le] at hpos
                have hf : passesChecks env minTransfer retainedBalance feeInt ab = true := by
                  simp only [passesChecks, balanceBI, decide_eq_true_eq]
                  exact ⟨hel.1, hel.2, hpos⟩
                rw [List.filter_cons_of_pos hf]
                obtain ⟨new, h1, h2⟩ := ih _ txs h
                obtain ⟨c1, c2, c3, c4⟩ := createRawTransaction_ok hc
                refine ⟨_ :: new, by rw [h1, List.append_assoc]; rfl, List.Forall₂.cons ?_ h2⟩
                exact
                  { nonzero := hel.1
                    threshold := hel.2
                    positive := hpos
                    source := c2
                    target := by rw [c3]; rfl
                    inputs := ⟨utxos, pool, hu, hpool, by rw [c1, collectVins_eq]; simp⟩
                    built := c4 }

theorem summaryLoop_lookups (env : Env) (sumRawTx : SummaryRawTransaction)
    (minTransfer retainedBalance : Int) (feeInt : Nat) (anchor : String) (a : String) :
    ∀ (balances : List Balance) (acc : List RawTransaction),
      Call.listUnnSpent a ∈
        (summaryLoop env sumRawTx minTransfer retainedBalance feeInt anchor balances acc).calls →
      ∃ ab ∈ balances, ab.Address = a ∧ balanceBI env ab ≠ 0 ∧ minTransfer ≤ balanceBI env ab := by
  intro balances
  induction balances with
  | nil => intro acc h; simp [summaryLoop] at h
  | cons ab rest ih =>
    intro acc h
    have lift : (∃ b ∈ rest, b.Address = a ∧ balanceBI env b ≠ 0 ∧ minTransfer ≤ balanceBI env b) →
        ∃ b ∈ ab :: rest, b.Address = a ∧ balanceBI env b ≠ 0 ∧ minTransfer ≤ balanceBI env b := by
      rintro ⟨b, hb, hr⟩
      exact ⟨b, List.mem_cons_of_mem _ hb, hr⟩
    unfold summaryLoop at h
    simp only at h
    split at h
    · exact lift (ih acc h)
    · rename_i hel
      simp only [not_or, not_lt] at hel
      have here : Call.listUnnSpent a = Call.listUnnSpent ab.Address →
          ∃ b ∈ ab :: rest, b.Address = a ∧ balanceBI env b ≠ 0 ∧ minTransfer ≤ balanceBI env b := by
        intro heq
        injection heq with heq
        exact ⟨ab, List.mem_cons_self _ _, heq.symm, hel.1, hel.2⟩
      have hcr := createRawTransaction_calls env
      split at h
      · simp only [List.mem_singleton] at h
        exact here h
      · split at h
        · simp only [List.singleton_append, List.mem_cons, List.not_mem_nil, or_false] at h
          rcases h with h | h
          · exact here h
          · exact absurd h (by simp)
        · split at h
          · simp only [List.singleton_append, List.mem_cons, List.not_mem_nil, or_false] at h
            rcases h with h | h
            · exact here h
            · exact absurd h (by simp)
          · split at h
            · simp only [List.singleton_append, List.cons_append, List.nil_append,
                List.mem_cons] at h
              rcases h with h | h | h
              · exact here h
              · exact absurd h (by simp)
              · exact lift (ih acc h)
            · split at h
              · simp only [List.singleton_append, List.cons_append, List.nil_append,
                  List.mem_cons] at h
                rcases h with h | h | h
                · exact here h
                · exact absurd h (by simp)
                · exact absurd h (hcr _ _ _ _ _)
              · simp only [List.singleton_append, List.cons_append, List.nil_append,
                  List.mem_cons, List.mem_append] at h
                rcases h with h | h | h | h
                · exact here h
                · exact absurd h (by simp)
                · exact absurd h (hcr _ _ _ _ _)
                · exact lift (ih _ h)

theorem forall₂_mem_right {α β : Type} {R : α → β → Prop} {l1 : List α} {l2 : List β}
    (h : List.Forall₂ R l1 l2) : ∀ y ∈ l2, ∃ x ∈ l1, R x y := by
  induction h with
  | nil => intro y hy; simp at hy
  | cons hr _ ih =>
    intro y hy
    rcases List.mem_cons.mp hy with rfl | hy
    · exact ⟨_, List.mem_cons_self _ _, hr⟩
    · obtain ⟨x, hx, hxy⟩ := ih y hy
      exact ⟨x, List.mem_cons_of_mem _ hx, hxy⟩

theorem create_built {env : Env} {rawTx : RawTransaction}
    (h : (CreateBBCRawTransaction env rawTx).err = none) :
    ∃ anchor queried, (queryBalances env rawTx).1 = .ok (anchor, queried) ∧
      enoughBalances (neededAmount env rawTx) (sortSlice env queried) ≠ [] ∧
      (CreateBBCRawTransaction env rawTx).rawTx.Vins =
        (selectLoop env anchor (poolOf env) (neededAmount env rawTx)
          (enoughBalances (neededAmount env rawTx) (sortSlice env queried)) "" []).2.1 ∧
      (CreateBBCRawTransaction env rawTx).rawTx.TxFrom =
        [(selectLoop env anchor (poolOf env) (neededAmount env rawTx)
          (enoughBalances (neededAmount env rawTx) (sortSlice env queried)) "" []).1] ∧
      (CreateBBCRawTransaction env rawTx).rawTx.IsBuilt = true := by
  unfold CreateBBCRawTransaction at h ⊢
  rcases hq : queryBalances env rawTx with ⟨_ | ⟨anchor, queried⟩, c3⟩
  · simp [hq] at h
  · refine ⟨anchor, queried, rfl, ?_⟩
    simp only [hq] at h ⊢
    by_cases hl : (enoughBalances (neededAmount env rawTx) (sortSlice env queried)).length = 0
    · simp only [hl, if_true] at h
      split at h <;> simp at h
    · simp only [hl, if_false] at h ⊢
      refine ⟨fun hnil => hl (by simp [hnil]), ?_⟩
      split at h
      · simp at h
      · split at h
        · simp at h
        · simp

theorem summary_exact {env : Env} {sumRawTx : SummaryRawTransaction} {txs : List RawTransaction}
    (h : (CreateSimpleSummaryRawTransaction env sumRawTx).rawTxs = some txs) :
    ∃ addresses balances anchor,
      env.GetAddressList sumRawTx.AddressStartIndex sumRawTx.AddressLimit sumRawTx.AccountID
        = .ok addresses ∧
      env.GetBalanceByAddress (addresses.map fun a => a.Address) = .ok balances ∧
      env.getAnchor = .ok anchor ∧
      List.Forall₂
        (IsRequestOf env sumRawTx (minTransferOf env sumRawTx) (retainedOf env sumRawTx)
          (feeOf env sumRawTx.FeeRate) anchor)
        (balances.filter (passesChecks env (minTransferOf env sumRawTx) (retainedOf env sumRawTx)
          (feeOf env sumRawTx.FeeRate))) txs := by
  unfold CreateSimpleSummaryRawTransaction at h
  simp only at h
  split at h
  · simp at h
  · cases hA : env.GetAddressList sumRawTx.AddressStartIndex sumRawTx.AddressLimit
        sumRawTx.AccountID with
    | error e => simp [hA] at h
    | ok addresses =>
      simp only [hA] at h
      split at h
      · simp at h
      · cases hB : env.GetBalanceByAddress (addresses.map fun a => a.Address) with
        | error e => simp [hB] at h
        | ok balances =>
          simp only [hB] at h
          cases hC : env.getAnchor with
          | error e => simp [hC] at h
          | ok anchor =>
            simp only [hC] at h
            obtain ⟨new, h1, h2⟩ := summaryLoop_exact env sumRawTx _ _ _ anchor balances [] txs h
            simp only [List.nil_append] at h1
            subst h1
            exact ⟨addresses, balances, anchor, rfl, hB, rfl, h2⟩

theorem summary_built {env : Env} {sumRawTx : SummaryRawTransaction} {txs : List RawTransaction}
    (h : (CreateSimpleSummaryRawTransaction env sumRawTx).rawTxs = some txs) :
    ∃ addresses balances anchor,
      env.GetAddressList sumRawTx.AddressStartIndex sumRawTx.AddressLimit sumRawTx.AccountID
        = .ok addresses ∧
      env.GetBalanceByAddress (addresses.map fun a => a.Address) = .ok balances ∧
      env.getAnchor = .ok anchor ∧
      ∀ tx ∈ txs, ∃ ab ∈ balances,
        IsRequestOf env sumRawTx (minTransferOf env sumRawTx) (retainedOf env sumRawTx)
          (feeOf env sumRawTx.FeeRate) anchor ab tx := by
  obtain ⟨addresses, balances, anchor, hA, hB, hC, hall⟩ := summary_exact h
  refine ⟨addresses, balances, anchor, hA, hB, hC, ?_⟩
  intro tx htx
  obtain ⟨ab, hab, hr⟩ := forall₂_mem_right hall tx htx
  exact ⟨ab, (List.mem_filter.mp hab).1, hr⟩

theorem summary_lookups {env : Env} {sumRawTx : SummaryRawTransaction} {addresses : List Address}
    {balances : List Balance} {a : String}
    (hA : env.GetAddressList sumRawTx.AddressStartIndex sumRawTx.AddressLimit sumRawTx.AccountID
        = .ok addresses)
    (hB : env.GetBalanceByAddress (addresses.map fun a => a.Address) = .ok balances)
    (h : Call.listUnnSpent a ∈ (CreateSimpleSummaryRawTransaction env sumRawTx).calls) :
    ∃ ab ∈ balances, ab.Address = a ∧ balanceBI env ab ≠ 0 ∧
      minTransferOf env sumRawTx ≤ balanceBI env ab := by
  unfold CreateSimpleSummaryRawTransaction at h
  simp only [hA, hB] at h
  split at h
  · simp at h
  · split at h
    · simp at h
    · cases hC : env.getAnchor with
      | error e => simp [hC] at h
      | ok anchor =>
        simp only [hC, List.singleton_append, List.cons_append, List.nil_append,
          List.mem_cons, List.mem_append] at h
        rcases h with h | h | h | h
        · exact absurd h (by simp)
        · exact absurd h (by simp)
        · exact absurd h (by simp)
        · exact summaryLoop_lookups env sumRawTx _ _ _ anchor a balances [] h

theorem mem_nonPending {pool : List UTXOinPool} {utxos : List UnSpent} {u : UnSpent}
    (h : u ∈ nonPending pool utxos) :
    u ∈ utxos ∧ UTXOinPool.mk u.TxID u.Vout ∉ pool := by
  simp only [nonPending, List.mem_filter, Bool.not_eq_true'] at h
  refine ⟨h.1, fun hmem => ?_⟩
  exact (isUnspentAlreadyInPool_false_iff pool u).mp h.2 _ hmem ⟨rfl, rfl⟩

theorem scanOf_mem {env : Env} {anchor : String} {pool : List UTXOinPool} {amount : Int}
    {c : AddrBalance} {tmp : List Vin} (h : scanOf env anchor pool amount c = some tmp)
    {vin : Vin} (hv : vin ∈ tmp) :
    ∃ u ∈ nonPending pool (utxosOf env c.Address anchor), vin = vinOf u := by
  obtain ⟨k, -, -, hr, -, -⟩ := scanUtxos_some pool amount _ _ _ _ h
  rw [hr] at hv
  simp only [List.nil_append, List.mem_map] at hv
  obtain ⟨u, hu, rfl⟩ := hv
  exact ⟨u, List.mem_of_mem_take hu, rfl⟩

theorem poolOf_eq {env : Env} {pool : List UTXOinPool} (h : getUTXOsInPool env = .ok pool) :
    poolOf env = pool := by
  simp [poolOf, h]

/-- C1: whenever the node returns a pending-pool set, no input of a transaction built
by `CreateBBCRawTransaction`, and no input of a request produced by
`CreateSimpleSummaryRawTransaction`, has its (transaction id, output index) in that
set. -/
theorem pool_outputs_never_selected (env : Env) (pool : List UTXOinPool)
    (hpool : getUTXOsInPool env = .ok pool) :
    (∀ rawTx : RawTransaction, (CreateBBCRawTransaction env rawTx).err = none →
      ∀ vin ∈ (CreateBBCRawTransaction env rawTx).rawTx.Vins,
        UTXOinPool.mk vin.TxID vin.Vout ∉ pool) ∧
    (∀ (sumRawTx : SummaryRawTransaction) (txs : List RawTransaction),
      (CreateSimpleSummaryRawTransaction env sumRawTx).rawTxs = some txs →
      ∀ tx ∈ txs, ∀ vin ∈ tx.Vins, UTXOinPool.mk vin.TxID vin.Vout ∉ pool) := by
  constructor
  · intro rawTx hok vin hvin
    obtain ⟨anchor, queried, -, -, hV, -, -⟩ := create_built hok
    rw [hV, poolOf_eq hpool] at hvin
    rcases selectLoop_spec env anchor pool (neededAmount env rawTx)
        (enoughBalances (neededAmount env rawTx) (sortSlice env queried)) "" with
      ⟨h1, -⟩ | ⟨l1, c, l2, tmp, -, -, hsc, -, h5, -⟩
    · rw [h1] at hvin; simp at hvin
    · rw [h5] at hvin
      obtain ⟨u, hu, rfl⟩ := scanOf_mem hsc hvin
      exact (mem_nonPending hu).2
  · intro sumRawTx txs hok tx htx vin hvin
    obtain ⟨addresses, balances, anchor, -, -, -, hall⟩ := summary_built hok
    obtain ⟨ab, -, hreq⟩ := hall tx htx
    obtain ⟨utxos, pool1, -, hp1, hV⟩ := hreq.inputs
    have : pool1 = pool := by rw [hpool] at hp1; exact (Except.ok.inj hp1).symm
    subst this
    rw [hV] at hvin
    obtain ⟨u, hu, rfl⟩ := List.mem_map.mp hvin
    exact (mem_nonPending hu).2

theorem pool_outputs_never_selected_witness :
    getUTXOsInPool exampleEnv = .ok [⟨"t0", 0⟩] ∧
    ((∀ rawTx : RawTransaction, (CreateBBCRawTransaction exampleEnv rawTx).err = none →
      ∀ vin ∈ (CreateBBCRawTransaction exampleEnv rawTx).rawTx.Vins,
        UTXOinPool.mk vin.TxID vin.Vout ∉ [(⟨"t0", 0⟩ : UTXOinPool)]) ∧
    (∀ (sumRawTx : SummaryRawTransaction) (txs : List RawTransaction),
      (CreateSimpleSummaryRawTransaction exampleEnv sumRawTx).rawTxs = some txs →
      ∀ tx ∈ txs, ∀ vin ∈ tx.Vins, UTXOinPool.mk vin.TxID vin.Vout ∉ [(⟨"t0", 0⟩ : UTXOinPool)])) :=
  ⟨rfl, pool_outputs_never_selected exampleEnv [⟨"t0", 0⟩] rfl⟩

theorem bubbleLeft_perm (x : AddrBalance) (run : List AddrBalance) :
    (bubbleLeft x run).Perm (x :: run) := by
  induction run with
  | nil => simp [bubbleLeft]
  | cons y ys ih =>
    by_cases h : sortLess x y = true
    · simp only [bubbleLeft, h, if_true]
      exact (List.Perm.cons y ih).trans (List.Perm.swap x y ys)
    · simp [bubbleLeft, h]

theorem foldl_bubbleLeft_perm (l : List AddrBalance) :
    ∀ run : List AddrBalance,
      (l.foldl (fun run x => bubbleLeft x run) run).Perm (l.reverse ++ run) := by
  induction l with
  | nil => intro run; simp
  | cons x xs ih =>
    intro run
    simp only [List.foldl_cons, List.reverse_cons, List.append_assoc, List.singleton_append]
    exact (ih _).trans (List.Perm.append_left _ (bubbleLeft_perm x run))

theorem insertionSort_perm (l : List AddrBalance) : (insertionSort l).Perm l := by
  unfold insertionSort
  refine (List.reverse_perm _).trans ?_
  have := foldl_bubbleLeft_perm l []
  simp only [List.append_nil] at this
  exact this.trans (List.reverse_perm l)

theorem sortSlice_perm (env : Env) (l : List AddrBalance) : (sortSlice env l).Perm l := by
  unfold sortSlice
  split
  · exact insertionSort_perm l
  · exact env.sortLonger_perm l

theorem mem_sortSlice {env : Env} {l : List AddrBalance} {b : AddrBalance} :
    b ∈ sortSlice env l ↔ b ∈ l :=
  (sortSlice_perm env l).mem_iff

theorem bubbleLeft_sorted (x : AddrBalance) :
    ∀ run : List AddrBalance, run.Pairwise (fun a b => sortedBefore b a) →
      (∀ y ∈ run, y.index < x.index) →
      (bubbleLeft x run).Pairwise (fun a b => sortedBefore b a) := by
  intro run
  induction run with
  | nil => intro _ _; simp [bubbleLeft]
  | cons y ys ih =>
    intro hp hidx
    rw [List.pairwise_cons] at hp
    by_cases h : sortLess x y = true
    · simp only [bubbleLeft, h, if_true]
      rw [List.pairwise_cons]
      refine ⟨?_, ih hp.2 (fun z hz => hidx z (List.mem_cons_of_mem _ hz))⟩
      intro z hz
      have hz1 := (List.Perm.mem_iff (bubbleLeft_perm x ys)).mp hz
      rcases List.mem_cons.mp hz1 with rfl | hz2
      · have hx : z.Balance ≥ y.Balance := by simpa [sortLess] using h
        have hi := hidx y (List.mem_cons_self _ _)
        unfold sortedBefore
        rcases lt_or_eq_of_le hx with h1 | h1
        · exact Or.inl h1
        · exact Or.inr ⟨h1.symm, hi⟩
      · exact hp.1 z hz2
    · simp only [bubbleLeft, h, if_false, Bool.false_eq_true]
      have hx : x.Balance < y.Balance := by simpa [sortLess] using h
      rw [List.pairwise_cons]
      refine ⟨?_, List.pairwise_cons.mpr hp⟩
      intro z hz
      rcases List.mem_cons.mp hz with rfl | hz
      · exact Or.inl hx
      · have := hp.1 z hz
        unfold sortedBefore at this ⊢
        rcases this with h1 | ⟨h1, -⟩
        · exact Or.inl (lt_trans hx h1)
        · exact Or.inl (by omega)

theorem foldl_bubbleLeft_sorted (l : List AddrBalance) :
    ∀ run : List AddrBalance, run.Pairwise (fun a b => sortedBefore b a) →
      l.Pairwise (fun a b => a.index < b.index) →
      (∀ x ∈ l, ∀ y ∈ run, y.index < x.index) →
      (l.foldl (fun run x => bubbleLeft x run) run).Pairwise (fun a b => sortedBefore b a) := by
  induction l with
  | nil => intro run hp _ _; simpa using hp
  | cons x xs ih =>
    intro run hp hl hidx
    rw [List.pairwise_cons] at hl
    simp only [List.foldl_cons]
    refine ih _ (bubbleLeft_sorted x run hp (hidx x (List.mem_cons_self _ _))) hl.2 ?_
    intro z hz y hy
    rcases List.mem_cons.mp ((List.Perm.mem_iff (bubbleLeft_perm x run)).mp hy) with rfl | hy
    · exact hl.1 z hz
    · exact hidx z (List.mem_cons_of_mem _ hz) y hy

theorem sortSlice_sorted (env : Env) {l : List AddrBalance} (hlen : l.length ≤ 6)
    (hl : l.Pairwise (fun a b => a.index < b.index)) :
    (sortSlice env l).Pairwise sortedBefore := by
  unfold sortSlice insertionSort
  rw [if_pos hlen]
  rw [List.pairwise_reverse]
  exact foldl_bubbleLeft_sorted l [] List.Pairwise.nil hl (by simp)

theorem balanceLoop_spec (env : Env) (anchor : String) :
    ∀ (addresses : List Address) (i : Nat) (acc res : List AddrBalance),
      (balanceLoop env anchor addresses i acc).1 = .ok res →
      ∃ new, res = acc ++ new ∧
        new.map (fun b => b.index) = List.range' i addresses.length ∧
        List.Forall₂ (fun (a : Address) (b : AddrBalance) =>
          ∃ bal, getBalance env a.Address anchor = .ok bal ∧
            b.Address = a.Address ∧ b.Balance = bal.Balance) addresses new := by
  intro addresses
  induction addresses with
  | nil =>
    intro i acc res h
    simp only [balanceLoop, Except.ok.injEq] at h
    exact ⟨[], by simp [h], by simp, List.Forall₂.nil⟩
  | cons a rest ih =>
    intro i acc res h
    unfold balanceLoop at h
    cases hb : getBalance env a.Address anchor with
    | error e => simp [hb] at h
    | ok bal =>
      simp only [hb] at h
      obtain ⟨new, h1, h2, h3⟩ := ih _ _ _ h
      refine ⟨{ bal with index := i } :: new, by simp [h1], ?_, ?_⟩
      · simp [h2, List.range']
      · refine List.Forall₂.cons ⟨bal, hb, ?_, rfl⟩ h3
        simp only [getBalance] at hb
        split at hb
        · simp at hb
        · simp only [Except.ok.injEq] at hb; simp [← hb]
        · simp only [Except.ok.injEq] at hb; simp [← hb]

theorem queryBalances_ok {env : Env} {rawTx : RawTransaction} {anchor : String}
    {queried : List AddrBalance} (h : (queryBalances env rawTx).1 = .ok (anchor, queried)) :
    env.getAnchor = .ok anchor ∧
    ∃ addresses, env.GetAddressList 0 (-1) rawTx.AccountID = .ok addresses ∧
      addresses ≠ [] ∧
      (balanceLoop env anchor addresses 0 []).1 = .ok queried ∧
      (queryBalances env rawTx).2 =
        [Call.GetAddressList 0 (-1) rawTx.AccountID, Call.getAnchor] ++
          (balanceLoop env anchor addresses 0 []).2 := by
  unfold queryBalances at h ⊢
  cases hA : env.GetAddressList 0 (-1) rawTx.AccountID with
  | error e => simp [hA] at h
  | ok addresses =>
    simp only [hA] at h ⊢
    by_cases hl : addresses.length = 0
    · simp [hl] at h
    · simp only [hl, if_false] at h ⊢
      cases hB : env.getAnchor with
      | error e => simp [hB] at h
      | ok a =>
        simp only [hB] at h ⊢
        cases hC : (balanceLoop env a addresses 0 []).1 with
        | error e => simp [hC] at h
        | ok q =>
          simp only [hC, Except.ok.injEq, Prod.mk.injEq] at h
          obtain ⟨rfl, rfl⟩ := h
          refine ⟨rfl, addresses, rfl, ?_, hC, ?_⟩
          · intro hnil; exact hl (by simp [hnil])
          · simp [hC]

theorem balanceLoop_calls (env : Env) (anchor : String) :
    ∀ (addresses : List Address) (i : Nat) (acc : List AddrBalance),
      ∀ c ∈ (balanceLoop env anchor addresses i acc).2, isUtxoLookup c = false := by
  intro addresses
  induction addresses with
  | nil => intro i acc c hc; simp [balanceLoop] at hc
  | cons a rest ih =>
    intro i acc c hc
    unfold balanceLoop at hc
    cases hb : getBalance env a.Address anchor with
    | error e =>
      simp only [hb, List.mem_singleton] at hc
      subst hc; rfl
    | ok bal =>
      simp only [hb, List.mem_cons] at hc
      rcases hc with rfl | hc
      · rfl
      · exact ih _ _ c hc

theorem queryBalances_calls (env : Env) (rawTx : RawTransaction) :
    (queryBalances env rawTx).2.filter isUtxoLookup = [] := by
  rw [List.filter_eq_nil_iff]
  intro c hc
  suffices h : isUtxoLookup c = false by simp [h]
  unfold queryBalances at hc
  cases hA : env.GetAddressList 0 (-1) rawTx.AccountID with
  | error e => simp only [hA, List.mem_singleton] at hc; subst hc; rfl
  | ok addresses =>
    simp only [hA] at hc
    by_cases hl : addresses.length = 0
    · simp only [hl, if_true, List.mem_singleton] at hc; subst hc; rfl
    · simp only [hl, if_false] at hc
      cases hB : env.getAnchor with
      | error e =>
        simp only [hB, List.singleton_append, List.mem_cons, List.not_mem_nil, or_false] at hc
        rcases hc with rfl | rfl <;> rfl
      | ok a =>
        simp only [hB] at hc
        have key : c ∈ [Call.GetAddressList 0 (-1) rawTx.AccountID] ++ [Call.getAnchor] ++
            (balanceLoop env a addresses 0 []).2 := by
          split at hc <;> exact hc
        simp only [List.singleton_append, List.cons_append, List.nil_append, List.mem_cons] at key
        rcases key with rfl | rfl | key
        · rfl
        · rfl
        · exact balanceLoop_calls env a addresses 0 [] c key

theorem lookupsOf_filter (l : List AddrBalance) : (lookupsOf l).filter isUtxoLookup = lookupsOf l := by
  rw [List.filter_eq_self]
  intro c hc
  simp only [lookupsOf, List.mem_map] at hc
  obtain ⟨b, -, rfl⟩ := hc
  rfl

theorem create_built_calls {env : Env} {rawTx : RawTransaction}
    (h : (CreateBBCRawTransaction env rawTx).err = none) :
    ∃ anchor queried, (queryBalances env rawTx).1 = .ok (anchor, queried) ∧
      (CreateBBCRawTransaction env rawTx).calls.filter isUtxoLookup =
        (selectLoop env anchor (poolOf env) (neededAmount env rawTx)
          (enoughBalances (neededAmount env rawTx) (sortSlice env queried)) "" []).2.2.filter
            isUtxoLookup := by
  have hqc := queryBalances_calls env rawTx
  unfold CreateBBCRawTransaction at h ⊢
  rcases hq : queryBalances env rawTx with ⟨_ | ⟨anchor, queried⟩, c3⟩
  · simp [hq] at h
  · refine ⟨anchor, queried, rfl, ?_⟩
    simp only [hq] at h hqc ⊢
    by_cases hl : (enoughBalances (neededAmount env rawTx) (sortSlice env queried)).length = 0
    · simp only [hl, if_true] at h
      split at h <;> simp at h
    · simp only [hl, if_false] at h ⊢
      split at h
      · simp at h
      · split at h
        · simp at h
        · simp [List.filter_append, hqc, isUtxoLookup]

theorem scanOf_none_noCover {env : Env} {anchor : String} {amount : Int} {c : AddrBalance}
    (h : scanOf env anchor (poolOf env) amount c = none) :
    NoCover amount (availableOf env anchor c) := by
  intro j h0 h1
  have := scanUtxos_none (poolOf env) amount _ _ _ h j h0 h1
  simpa [availableOf] using this

theorem scanOf_some_cover {env : Env} {anchor : String} {amount : Int} {c : AddrBalance}
    {tmp : List Vin} (h : scanOf env anchor (poolOf env) amount c = some tmp) :
    IsShortestNonemptyCover amount (availableOf env anchor c) tmp := by
  obtain ⟨k, h0, h1, hr, hs, hmin⟩ := scanUtxos_some (poolOf env) amount _ _ _ _ h
  refine ⟨k, h0, h1, by simpa using hr, by simpa using hs, ?_⟩
  intro j hj0 hj1
  simpa using hmin j hj0 hj1

theorem mem_enoughBalances {amount : Int} {l : List AddrBalance} {b : AddrBalance} :
    b ∈ enoughBalances amount l ↔ b ∈ l ∧ amount ≤ b.Balance := by
  simp [enoughBalances]

/-- C2: in every transaction that `CreateBBCRawTransaction` builds, `TxFrom` holds one
address and every input spends an unspent output listed for that address; when
there are inputs, it is an address of the account whose balance covers amount plus
fee.  A built transaction implies that the account has such an address. -/
theorem inputs_from_one_address (env : Env) (rawTx : RawTransaction)
    (hok : (CreateBBCRawTransaction env rawTx).err = none) :
    ∃ anchor queried src,
      (queryBalances env rawTx).1 = .ok (anchor, queried) ∧
      (∃ b ∈ queried, neededAmount env rawTx ≤ b.Balance) ∧
      (CreateBBCRawTransaction env rawTx).rawTx.TxFrom = [src] ∧
      (∀ vin ∈ (CreateBBCRawTransaction env rawTx).rawTx.Vins,
        ∃ u ∈ utxosOf env src anchor, vin = vinOf u) ∧
      ((CreateBBCRawTransaction env rawTx).rawTx.Vins ≠ [] →
        ∃ b ∈ queried, b.Address = src ∧ neededAmount env rawTx ≤ b.Balance) := by
  obtain ⟨anchor, queried, hq, hne, hV, hF, -⟩ := create_built hok
  refine ⟨anchor, queried, _, hq, ?_, hF, ?_, ?_⟩
  · obtain ⟨b, hb⟩ := List.exists_mem_of_ne_nil _ hne
    have := mem_enoughBalances.mp hb
    exact ⟨b, mem_sortSlice.mp this.1, this.2⟩
  · intro vin hvin
    rw [hV] at hvin
    rcases selectLoop_spec env anchor (poolOf env) (neededAmount env rawTx)
        (enoughBalances (neededAmount env rawTx) (sortSlice env queried)) "" with
      ⟨h1, -⟩ | ⟨l1, c, l2, tmp, -, -, hsc, -, h5, h6, -⟩
    · rw [h1] at hvin; simp at hvin
    · rw [h5] at hvin
      obtain ⟨u, hu, rfl⟩ := scanOf_mem hsc hvin
      rw [h6]
      exact ⟨u, (mem_nonPending hu).1, rfl⟩
  · intro hvne
    rw [hV] at hvne
    rcases selectLoop_spec env anchor (poolOf env) (neededAmount env rawTx)
        (enoughBalances (neededAmount env rawTx) (sortSlice env queried)) "" with
      ⟨h1, -⟩ | ⟨l1, c, l2, tmp, hsplit, -, -, -, -, h6, -⟩
    · exact absurd h1 hvne
    · have hc : c ∈ enoughBalances (neededAmount env rawTx) (sortSlice env queried) := by
        rw [hsplit]; simp
      have := mem_enoughBalances.mp hc
      exact ⟨c, mem_sortSlice.mp this.1, h6.symm, this.2⟩

theorem inputs_from_one_address_witness :
    (CreateBBCRawTransaction exampleEnv (payTo "80")).err = none ∧
    ∃ anchor queried src,
      (queryBalances exampleEnv (payTo "80")).1 = .ok (anchor, queried) ∧
      (∃ b ∈ queried, neededAmount exampleEnv (payTo "80") ≤ b.Balance) ∧
      (CreateBBCRawTransaction exampleEnv (payTo "80")).rawTx.TxFrom = [src] ∧
      (∀ vin ∈ (CreateBBCRawTransaction exampleEnv (payTo "80")).rawTx.Vins,
        ∃ u ∈ utxosOf exampleEnv src anchor, vin = vinOf u) ∧
      ((CreateBBCRawTransaction exampleEnv (payTo "80")).rawTx.Vins ≠ [] →
        ∃ b ∈ queried, b.Address = src ∧ neededAmount exampleEnv (payTo "80") ≤ b.Balance) :=
  ⟨by decide, inputs_from_one_address exampleEnv (payTo "80") (by decide)⟩

theorem range'_pairwise_lt (n : Nat) : ∀ i : Nat, (List.range' i n).Pairwise (fun a b => a < b) := by
  induction n with
  | zero => intro i; simp
  | succ n ih =>
    intro i
    rw [List.range'_succ, List.pairwise_cons]
    refine ⟨fun b hb => ?_, ih (i + 1)⟩
    have := (List.mem_range'_1.mp hb).1
    omega

theorem queried_index_increasing {env : Env} {rawTx : RawTransaction} {anchor : String}
    {queried : List AddrBalance} (h : (queryBalances env rawTx).1 = .ok (anchor, queried)) :
    queried.Pairwise (fun a b => a.index < b.index) := by
  obtain ⟨-, addresses, -, -, hbl, -⟩ := queryBalances_ok h
  obtain ⟨new, h1, h2, -⟩ := balanceLoop_spec env anchor addresses 0 [] queried hbl
  simp only [List.nil_append] at h1
  subst h1
  have := range'_pairwise_lt addresses.length 0
  rw [← h2, List.pairwise_map] at this
  exact this

theorem totalBalance_eq_sum (l : List AddrBalance) :
    totalBalance l = (l.map fun b => b.Balance).sum := by
  have key : ∀ (l : List AddrBalance) (t : Int),
      l.foldl (fun total b => total + b.Balance) t = t + (l.map fun b => b.Balance).sum := by
    intro l
    induction l with
    | nil => intro t; simp
    | cons b bs ih => intro t; simp only [List.foldl_cons, ih, List.map_cons, List.sum_cons]; ring
  simpa [totalBalance] using key l 0

theorem totalBalance_sortSlice (env : Env) (l : List AddrBalance) :
    totalBalance (sortSlice env l) = (l.map fun b => b.Balance).sum := by
  rw [totalBalance_eq_sum]
  exact ((sortSlice_perm env l).map _).sum_eq

theorem queryBalances_err_ne_wait (env : Env) (rawTx : RawTransaction) :
    (queryBalances env rawTx).1 ≠ .error .waitUntilPoolConfirmed := by
  unfold queryBalances
  cases hA : env.GetAddressList 0 (-1) rawTx.AccountID with
  | error e => simp
  | ok addresses =>
    simp only
    by_cases hl : addresses.length = 0
    · simp [hl]
    · simp only [hl, if_false]
      cases hB : env.getAnchor with
      | error e => simp
      | ok a =>
        simp only
        split <;> simp

theorem create_err_ne_wait (env : Env) (rawTx : RawTransaction) :
    (CreateBBCRawTransaction env rawTx).err ≠ some .waitUntilPoolConfirmed := by
  have hq := queryBalances_err_ne_wait env rawTx
  unfold CreateBBCRawTransaction
  rcases hqq : queryBalances env rawTx with ⟨_ | ⟨anchor, queried⟩, c3⟩
  · rename_i e
    rw [hqq] at hq
    simp only [ne_eq, Option.some.injEq]
    intro h
    exact hq (by rw [h])
  · simp only
    split
    · split <;> simp
    · split
      · simp
      · split <;> simp

/-- C5, on the code: the only funded address of `pendingEnv` is `A` and all its outputs
are in the pool, yet the build does not stop with the wait-for-confirmation error:
it calls the encoder with no input and an empty source address and returns the
wallet's lookup error for that address, with the request already modified.  No
input makes `CreateBBCRawTransaction` return the wait-for-confirmation error. -/
theorem wait_error_is_dropped :
    enoughBalances (neededAmount pendingEnv (payTo "80"))
      (sortSlice pendingEnv [⟨"A", 100, 0⟩, ⟨"B", 50, 1⟩]) = [⟨"A", 100, 0⟩] ∧
    availableOf pendingEnv "genesis" ⟨"A", 100, 0⟩ = [] ∧
    (CreateBBCRawTransaction pendingEnv (payTo "80")).err
      = some (.propagated "address not found") ∧
    Call.CreateEmptyTransactionAndHash [] "D" 80 5
      ∈ (CreateBBCRawTransaction pendingEnv (payTo "80")).calls ∧
    (CreateBBCRawTransaction pendingEnv (payTo "80")).rawTx.TxFrom = [""] ∧
    ∀ (env : Env) (rawTx : RawTransaction),
      (CreateBBCRawTransaction env rawTx).err ≠ some .waitUntilPoolConfirmed :=
  ⟨by decide, by decide, by decide, by decide, by decide, create_err_ne_wait⟩

theorem int64_of_lt {n : Nat} (h : n < 2 ^ 63) : int64 n = (n : Int) := by
  have h1 : n % 2 ^ 64 = n := Nat.mod_eq_of_lt (by omega)
  unfold int64
  rw [h1, if_pos h]

theorem int64_fromAmount_pos {env : Env} {s : String} (h : 0 < int64 (fromAmount env s)) :
    int64 (fromAmount env s) = (fromAmount env s : Int) := by
  have hlt : fromAmount env s < 2 ^ 64 := Nat.mod_lt _ (by norm_num)
  have h1 : fromAmount env s % 2 ^ 64 = fromAmount env s := Nat.mod_eq_of_lt hlt
  unfold int64 at h ⊢
  rw [h1] at h ⊢
  split
  · rfl
  · rename_i hge
    rw [if_neg hge] at h
    omega

/-- C8, as stated, fails: with a retained balance and a fee of `2^63` base units the
decoder's signed reading makes both negative, the difference
balance - retained - fee is 27670116110564327423 and does not fit 64 bits, and the
request for `A` carries the truncated amount 9223372036854775807. -/
theorem summary_amount_truncated :
    ((CreateSimpleSummaryRawTransaction wrapEnv (sweepTo "0" "9223372036854775808")).rawTxs.map
        fun l => l.map fun tx => (tx.TxFrom, tx.To))
      = some [(["A"], [("S", "9223372036854775807")])] ∧
    balanceBI wrapEnv ⟨"A", "9223372036854775807"⟩
        - retainedOf wrapEnv (sweepTo "0" "9223372036854775808")
        - int64 (feeOf wrapEnv (sweepTo "0" "9223372036854775808").FeeRate)
      = 27670116110564327423 := by
  constructor
  · decide
  · decide

/-- C8, amended: when the retained balance and the fee are below `2^63` base units, the
requests that `CreateSimpleSummaryRawTransaction` returns correspond one to one, in
order, to the entries of the balance array that pass both tests of the loop; each
request is from its entry's address and pays the summary address exactly
balance - retained - fee, which is positive; an entry for which
balance - retained - fee is not positive is none of these entries. -/
theorem summary_amount_exact (env : Env) (sumRawTx : SummaryRawTransaction)
    (txs : List RawTransaction)
    (hR : fromAmount env sumRawTx.RetainedBalance < 2 ^ 63)
    (hF : feeOf env sumRawTx.FeeRate < 2 ^ 63)
    (h : (CreateSimpleSummaryRawTransaction env sumRawTx).rawTxs = some txs) :
    ∃ addresses balances,
      env.GetAddressList sumRawTx.AddressStartIndex sumRawTx.AddressLimit sumRawTx.AccountID
        = .ok addresses ∧
      env.GetBalanceByAddress (addresses.map fun a => a.Address) = .ok balances ∧
      List.Forall₂
        (fun ab tx =>
          fromAmount env sumRawTx.RetainedBalance + feeOf env sumRawTx.FeeRate
            < fromAmount env ab.Balance ∧
          tx.TxFrom = [ab.Address] ∧
          tx.To = [(sumRawTx.SummaryAddress,
            env.convertToAmount (fromAmount env ab.Balance
              - fromAmount env sumRawTx.RetainedBalance - feeOf env sumRawTx.FeeRate))])
        (balances.filter (passesChecks env (minTransferOf env sumRawTx) (retainedOf env sumRawTx)
          (feeOf env sumRawTx.FeeRate))) txs ∧
      ∀ ab ∈ balances,
        (fromAmount env ab.Balance : Int) - fromAmount env sumRawTx.RetainedBalance
            - feeOf env sumRawTx.FeeRate ≤ 0 →
        ab ∉ balances.filter (passesChecks env (minTransferOf env sumRawTx)
          (retainedOf env sumRawTx) (feeOf env sumRawTx.FeeRate)) := by
  obtain ⟨addresses, balances, anchor, hA, hB, -, hall⟩ := summary_exact h
  have hRi : retainedOf env sumRawTx = (fromAmount env sumRawTx.RetainedBalance : Int) :=
    int64_of_lt hR
  have hFi : int64 (feeOf env sumRawTx.FeeRate) = (feeOf env sumRawTx.FeeRate : Int) :=
    int64_of_lt hF
  refine ⟨addresses, balances, hA, hB, hall.imp ?_, ?_⟩
  · intro ab tx hreq
    have hpos := hreq.positive
    rw [hRi, hFi] at hpos
    have hBpos : 0 < balanceBI env ab := by omega
    have hBi : balanceBI env ab = (fromAmount env ab.Balance : Int) := int64_fromAmount_pos hBpos
    rw [hBi] at hpos
    refine ⟨by omega, hreq.source, ?_⟩
    rw [hreq.target, hRi, hFi, hBi]
    have hlt : fromAmount env ab.Balance < 2 ^ 64 := Nat.mod_lt _ (by norm_num)
    have hval : bigUint64 ((fromAmount env ab.Balance : Int)
        - (fromAmount env sumRawTx.RetainedBalance : Int) - (feeOf env sumRawTx.FeeRate : Int))
        = fromAmount env ab.Balance - fromAmount env sumRawTx.RetainedBalance
          - feeOf env sumRawTx.FeeRate := by
      unfold bigUint64
      have : ((fromAmount env ab.Balance : Int)
          - (fromAmount env sumRawTx.RetainedBalance : Int) - (feeOf env sumRawTx.FeeRate : Int))
          = ((fromAmount env ab.Balance - fromAmount env sumRawTx.RetainedBalance
              - feeOf env sumRawTx.FeeRate : Nat) : Int) := by omega
      rw [this, Int.natAbs_ofNat]
      exact Nat.mod_eq_of_lt (by omega)
    rw [hval]
  · intro ab _ hle hmem
    have hp := (List.mem_filter.mp hmem).2
    simp only [passesChecks, decide_eq_true_eq] at hp
    obtain ⟨-, -, hpos⟩ := hp
    rw [hRi, hFi] at hpos
    have hBpos : 0 < balanceBI env ab := by omega
    have hBi : balanceBI env ab = (fromAmount env ab.Balance : Int) := int64_fromAmount_pos hBpos
    rw [hBi] at hpos
    omega

theorem summary_amount_exact_witness :
    fromAmount sweepEnv (sweepTo "10" "2").RetainedBalance < 2 ^ 63 ∧
    feeOf sweepEnv (sweepTo "10" "2").FeeRate < 2 ^ 63 ∧
    ((CreateSimpleSummaryRawTransaction sweepEnv (sweepTo "10" "2")).rawTxs.map
        fun l => l.map fun tx => (tx.TxFrom, tx.To)) = some [(["A"], [("S", "17")])] ∧
    ∃ txs, (CreateSimpleSummaryRawTransaction sweepEnv (sweepTo "10" "2")).rawTxs = some txs ∧
    ∃ addresses balances,
      sweepEnv.GetAddressList (sweepTo "10" "2").AddressStartIndex (sweepTo "10" "2").AddressLimit
        (sweepTo "10" "2").AccountID = .ok addresses ∧
      sweepEnv.GetBalanceByAddress (addresses.map fun a => a.Address) = .ok balances ∧
      List.Forall₂
        (fun ab tx =>
          fromAmount sweepEnv (sweepTo "10" "2").RetainedBalance
            + feeOf sweepEnv (sweepTo "10" "2").FeeRate < fromAmount sweepEnv ab.Balance ∧
          tx.TxFrom = [ab.Address] ∧
          tx.To = [((sweepTo "10" "2").SummaryAddress,
            sweepEnv.convertToAmount (fromAmount sweepEnv ab.Balance
              - fromAmount sweepEnv (sweepTo "10" "2").RetainedBalance
              - feeOf sweepEnv (sweepTo "10" "2").FeeRate))])
        (balances.filter (passesChecks sweepEnv (minTransferOf sweepEnv (sweepTo "10" "2"))
          (retainedOf sweepEnv (sweepTo "10" "2")) (feeOf sweepEnv (sweepTo "10" "2").FeeRate)))
        txs ∧
      ∀ ab ∈ balances,
        (fromAmount sweepEnv ab.Balance : Int) - fromAmount sweepEnv (sweepTo "10" "2").RetainedBalance
            - feeOf sweepEnv (sweepTo "10" "2").FeeRate ≤ 0 →
        ab ∉ balances.filter (passesChecks sweepEnv (minTransferOf sweepEnv (sweepTo "10" "2"))
          (retainedOf sweepEnv (sweepTo "10" "2")) (feeOf sweepEnv (sweepTo "10" "2").FeeRate)) :=
  ⟨by decide, by decide, by decide, _, rfl,
    summary_amount_exact sweepEnv (sweepTo "10" "2") _ (by decide) (by decide) rfl⟩

/-- C9, on the code: with a minimum transfer of 100 the address `A`, whose balance is
exactly 100 and so does not exceed the threshold, has its outputs looked up and
gets a request, although the comment of line 395 announces the test "whether the
balance exceeds the minimum transfer": the guard of line 398 skips an address
only when its balance is below the threshold. -/
theorem request_at_threshold :
    fromAmount exampleEnv "100" = 100 ∧
    fromAmount exampleEnv (sweepTo "100" "2").MinTransfer = 100 ∧
    balanceBI exampleEnv ⟨"A", "100"⟩ = minTransferOf exampleEnv (sweepTo "100" "2") ∧
    exampleEnv.GetBalanceByAddress ["A", "B"] = .ok [⟨"A", "100"⟩, ⟨"B", "50"⟩] ∧
    ((CreateSimpleSummaryRawTransaction exampleEnv (sweepTo "100" "2")).rawTxs.map
        fun l => l.map fun tx => tx.TxFrom) = some [["A"]] ∧
    (CreateSimpleSummaryRawTransaction exampleEnv (sweepTo "100" "2")).err = none ∧
    Call.listUnnSpent "A"
      ∈ (CreateSimpleSummaryRawTransaction exampleEnv (sweepTo "100" "2")).calls :=
  ⟨by decide, by decide, by decide, rfl, by decide, by decide, by decide⟩

theorem withError_shape (env : Env) (sumRawTx : SummaryRawTransaction) :
    ((CreateSummaryRawTransactionWithError env sumRawTx).err ≠ none →
      (CreateSummaryRawTransactionWithError env sumRawTx).entries = none) ∧
    (∀ entries, (CreateSummaryRawTransactionWithError env sumRawTx).entries = some entries →
      ∀ x ∈ entries, x.Error = none) := by
  unfold CreateSummaryRawTransactionWithError
  cases h : (CreateSummaryRawTransaction env sumRawTx).err with
  | none =>
    simp only [h, ne_eq, not_true_eq_false, false_implies, Option.some.injEq, true_and]
    intro entries he x hx
    rw [← he] at hx
    simp only [List.mem_map] at hx
    obtain ⟨tx, -, rfl⟩ := hx
    rfl
  | some e => simp [h]

/-- C10, on the code: in `pendingEnv` both addresses pass the tests of the summary loop,
the outputs of `A` are all in the pool and those of `B` are free.  The call returns
no slice and the error of `A`; `B` is never looked up and gets no entry, although
the same sweep yields requests for both when the outputs of `A` are free.  In
general a call that returns an error returns no entry, and no entry ever carries
an error. -/
theorem summary_stops_at_first_failure :
    [(⟨"A", "100"⟩ : Balance), ⟨"B", "50"⟩].filter
        (passesChecks pendingEnv (minTransferOf pendingEnv (sweepTo "10" "2"))
          (retainedOf pendingEnv (sweepTo "10" "2")) (feeOf pendingEnv (sweepTo "10" "2").FeeRate))
      = [⟨"A", "100"⟩, ⟨"B", "50"⟩] ∧
    (CreateSummaryRawTransactionWithError pendingEnv (sweepTo "10" "2")).entries = none ∧
    (CreateSummaryRawTransactionWithError pendingEnv (sweepTo "10" "2")).err
      = some (.unconfirmedTransaction "A") ∧
    Call.listUnnSpent "B"
      ∉ (CreateSummaryRawTransactionWithError pendingEnv (sweepTo "10" "2")).calls ∧
    ((CreateSummaryRawTransactionWithError exampleEnv (sweepTo "10" "2")).entries.map
        fun l => l.map fun x => x.RawTx.TxFrom) = some [["A"], ["B"]] ∧
    ∀ (env : Env) (sumRawTx : SummaryRawTransaction),
      ((CreateSummaryRawTransactionWithError env sumRawTx).err ≠ none →
        (CreateSummaryRawTransactionWithError env sumRawTx).entries = none) ∧
      (∀ entries, (CreateSummaryRawTransactionWithError env sumRawTx).entries = some entries →
        ∀ x ∈ entries, x.Error = none) :=
  ⟨by decide, by decide, by decide, by decide, by decide, withError_shape⟩

/-- C17: `SubmitRawTransaction` with an empty `RawHex` or with `IsCompleted` false
returns an error and no transaction, makes no call and leaves the request as it
was; a broadcast is attempted only for a non-empty completed request, and it is
then the only call; the request changes only when the broadcast succeeds, and then
exactly `TxID` and `IsSubmit` are set; a failed broadcast returns its error and
changes nothing. -/
theorem submit_guards (env : Env) (rawTx : RawTransaction) :
    ((rawTx.RawHex.length = 0 ∨ rawTx.IsCompleted = false) →
      (SubmitRawTransaction env rawTx).err ≠ none ∧
      (SubmitRawTransaction env rawTx).tx = none ∧
      (SubmitRawTransaction env rawTx).calls = [] ∧
      (SubmitRawTransaction env rawTx).rawTx = rawTx) ∧
    ((SubmitRawTransaction env rawTx).calls ≠ [] →
      rawTx.RawHex.length ≠ 0 ∧ rawTx.IsCompleted = true ∧
      (SubmitRawTransaction env rawTx).calls = [Call.SendRawTransaction rawTx.RawHex]) ∧
    ((SubmitRawTransaction env rawTx).rawTx ≠ rawTx →
      ∃ txid, env.SendRawTransaction rawTx.RawHex = .ok txid ∧
        Call.SendRawTransaction rawTx.RawHex ∈ (SubmitRawTransaction env rawTx).calls ∧
        (SubmitRawTransaction env rawTx).rawTx = { rawTx with TxID := txid, IsSubmit := true } ∧
        (SubmitRawTransaction env rawTx).err = none) ∧
    (rawTx.RawHex.length ≠ 0 → rawTx.IsCompleted = true →
      (∀ e, env.SendRawTransaction rawTx.RawHex = .error e →
        (SubmitRawTransaction env rawTx).err = some (.propagated e) ∧
        (SubmitRawTransaction env rawTx).tx = none ∧
        (SubmitRawTransaction env rawTx).rawTx = rawTx) ∧
      (∀ txid, env.SendRawTransaction rawTx.RawHex = .ok txid →
        (SubmitRawTransaction env rawTx).err = none ∧
        (SubmitRawTransaction env rawTx).rawTx = { rawTx with TxID := txid, IsSubmit := true })) := by
  unfold SubmitRawTransaction
  by_cases h1 : rawTx.RawHex.length = 0
  · simp [h1]
  · by_cases h2 : rawTx.IsCompleted = true
    · cases h3 : env.SendRawTransaction rawTx.RawHex with
      | error e => simp [h1, h2]
      | ok txid => simp [h1, h2]
    · simp [h1, h2]

/-- C12: when the external check does not pass, `VerifyBBCRawTransaction` returns the
request with `IsCompleted` false and everything else, `RawHex` included, as it
was; when it passes, `IsCompleted` is true, `RawHex` is the signed transaction
that the check returned, and nothing else changes. -/
theorem verify_frame (env : Env) (rawTx : RawTransaction) :
    ((verifyCheck env rawTx).1 = false →
      (VerifyBBCRawTransaction env rawTx).rawTx.IsCompleted = false ∧
      (VerifyBBCRawTransaction env rawTx).rawTx.RawHex = rawTx.RawHex ∧
      (VerifyBBCRawTransaction env rawTx).rawTx = { rawTx with IsCompleted := false }) ∧
    ((verifyCheck env rawTx).1 = true →
      (VerifyBBCRawTransaction env rawTx).rawTx.IsCompleted = true ∧
      (VerifyBBCRawTransaction env rawTx).rawTx.RawHex = (verifyCheck env rawTx).2 ∧
      (VerifyBBCRawTransaction env rawTx).rawTx
        = { rawTx with IsCompleted := true, RawHex := (verifyCheck env rawTx).2 }) := by
  unfold VerifyBBCRawTransaction verifyCheck
  constructor
  · intro h; simp [h]
  · intro h; simp [h]

/-- C13, as stated, fails: the unsigned transaction `builtTx` does not pass the check
and `VerifyBBCRawTransaction` returns no error for it. -/
theorem verify_failure_returns_nil :
    (verifyCheck exampleEnv builtTx).1 = false ∧
    (VerifyBBCRawTransaction exampleEnv builtTx).err = none ∧
    (VerifyBBCRawTransaction exampleEnv builtTx).rawTx.IsCompleted = false := by
  decide

/-- C13, amended: `VerifyBBCRawTransaction` never returns an error; the outcome of the
check is reported in `IsCompleted`, which is true exactly when the check passed. -/
theorem verify_reports_by_flag (env : Env) (rawTx : RawTransaction) :
    (VerifyBBCRawTransaction env rawTx).err = none ∧
    (VerifyBBCRawTransaction env rawTx).rawTx.IsCompleted = (verifyCheck env rawTx).1 := by
  unfold VerifyBBCRawTransaction verifyCheck
  simp only
  split <;> simp_all

theorem sign_without_key {env : Env} {e : String} (h : env.HDKey = .error e)
    (rawTx : RawTransaction) :
    (SignBBCRawTransaction env rawTx).err = none ∧
    (SignBBCRawTransaction env rawTx).rawTx = rawTx := by
  unfold SignBBCRawTransaction
  simp [h]

/-- C14, on the code: the wallet of `lockedEnv` cannot hand out its key, the built
transaction has one key signature with an empty `Signature`, and
`SignBBCRawTransaction` returns nil with the request as it was, the signature
still empty.  The same holds for every wallet whose `HDKey` fails. -/
theorem sign_returns_nil_without_key :
    lockedEnv.HDKey = .error "wallet is locked" ∧
    (mapGet builtTx.Signatures builtTx.AccountID).map (fun l => l.map fun ks => ks.Signature)
      = some [""] ∧
    (SignBBCRawTransaction lockedEnv builtTx).err = none ∧
    (SignBBCRawTransaction lockedEnv builtTx).rawTx = builtTx ∧
    ∀ (env : Env) (e : String), env.HDKey = .error e → ∀ rawTx : RawTransaction,
      (SignBBCRawTransaction env rawTx).err = none ∧
      (SignBBCRawTransaction env rawTx).rawTx = rawTx :=
  ⟨rfl, by decide, by decide, by decide, fun _ _ h rawTx => sign_without_key h rawTx⟩

theorem queryBalances_err_kind (env : Env) (rawTx : RawTransaction) (e : Error)
    (h : (queryBalances env rawTx).1 = .error e) :
    e ≠ .failedToGetPool ∧ ∀ a, e ≠ .failedToGetUtxo a := by
  unfold queryBalances at h
  cases hA : env.GetAddressList 0 (-1) rawTx.AccountID with
  | error e1 =>
    simp only [hA, Except.error.injEq] at h
    subst h; simp
  | ok addresses =>
    simp only [hA] at h
    by_cases hl : addresses.length = 0
    · simp only [hl, if_true, Except.error.injEq] at h
      subst h; simp
    · simp only [hl, if_false] at h
      cases hB : env.getAnchor with
      | error e1 =>
        simp only [hB, Except.error.injEq] at h
        subst h; simp
      | ok a =>
        simp only [hB] at h
        split at h
        · simp only [Except.error.injEq] at h
          subst h; simp
        · simp at h

theorem create_err_kind (env : Env) (rawTx : RawTransaction) :
    (CreateBBCRawTransaction env rawTx).err ≠ some .failedToGetPool ∧
    ∀ a, (CreateBBCRawTransaction env rawTx).err ≠ some (.failedToGetUtxo a) := by
  have hq := queryBalances_err_kind env rawTx
  unfold CreateBBCRawTransaction
  rcases hqq : queryBalances env rawTx with ⟨_ | ⟨anchor, queried⟩, c3⟩
  · rename_i e
    have := hq e (by rw [hqq])
    simp only [ne_eq, Option.some.injEq]
    exact ⟨this.1, this.2⟩
  · simp only
    split
    · split <;> simp
    · split
      · simp
      · split <;> simp

/-- C15, on the code: with the pool lookup failing, a payment of 80 is built all the
same, from outputs that were never checked against the pool (the output `t0` of
`A` among them); with the listing of `A` failing, a payment of 40 is built from
`B` without a word about `A`.  No input makes `CreateBBCRawTransaction` return
the errors that it constructs for these two failures. -/
theorem failed_lookups_are_masked :
    getUTXOsInPool poolDownEnv = .error "timeout" ∧
    (CreateBBCRawTransaction poolDownEnv (payTo "80")).err = none ∧
    (CreateBBCRawTransaction poolDownEnv (payTo "80")).rawTx.IsBuilt = true ∧
    (CreateBBCRawTransaction poolDownEnv (payTo "80")).rawTx.Vins
      = [⟨"t0", 0⟩, ⟨"t1", 0⟩, ⟨"t2", 1⟩] ∧
    listUnnSpent listDownEnv "A" "genesis" = .error "timeout" ∧
    Call.listUnnSpent "A" ∈ (CreateBBCRawTransaction listDownEnv (payTo "40")).calls ∧
    (CreateBBCRawTransaction listDownEnv (payTo "40")).err = none ∧
    (CreateBBCRawTransaction listDownEnv (payTo "40")).rawTx.IsBuilt = true ∧
    (CreateBBCRawTransaction listDownEnv (payTo "40")).rawTx.TxFrom = ["B"] ∧
    ∀ (env : Env) (rawTx : RawTransaction),
      (CreateBBCRawTransaction env rawTx).err ≠ some .failedToGetPool ∧
      ∀ a, (CreateBBCRawTransaction env rawTx).err ≠ some (.failedToGetUtxo a) :=
  ⟨rfl, by decide, by decide, by decide, rfl, by decide, by decide, by decide, by decide,
    create_err_kind⟩

/-- C11, on the code: in `exampleEnv` the address `A` has a balance of 100 and free
outputs worth 90 (the output of 10 is in the pool).  The sweep with retained
balance 2 and fee 5 returns no error and a request from `A` that pays 93 to the
summary address with the two free outputs as inputs: amount plus fee is 98, the
inputs sum to 90. -/
theorem summary_request_not_covered :
    (CreateSimpleSummaryRawTransaction exampleEnv (sweepTo "10" "2")).err = none ∧
    ((CreateSimpleSummaryRawTransaction exampleEnv (sweepTo "10" "2")).rawTxs.map
        fun l => l.map fun tx => (tx.TxFrom, tx.To, tx.Fees, tx.Vins))
      = some [(["A"], [("S", "93")], "5", [⟨"t1", 0⟩, ⟨"t2", 1⟩]),
              (["B"], [("S", "43")], "5", [⟨"t3", 0⟩])] ∧
    (nonPending (poolOf exampleEnv) (utxosOf exampleEnv "A" "genesis")).map vinOf
      = [⟨"t1", 0⟩, ⟨"t2", 1⟩] ∧
    amountSum (nonPending (poolOf exampleEnv) (utxosOf exampleEnv "A" "genesis")) = 90 ∧
    (90 : Int) < 93 + 5 := by
  refine ⟨by decide, rfl, by decide, by decide, by decide⟩

theorem createRawTransaction_err (env : Env) (rawTx : RawTransaction) (ab : Balance) (fee : Nat)
    (vins : List Vin) :
    (createRawTransaction env rawTx ab fee vins).err ≠ some .miniTransferBelowRetained := by
  unfold createRawTransaction
  cases hA : env.GetAddress ab.Address with
  | error e => simp [hA]
  | ok fromAddr =>
    cases hB : env.getAnchor with
    | error e => simp [hA, hB]
    | ok anchor =>
      simp only [hA, hB]
      split <;> simp

theorem summaryLoop_err (env : Env) (sumRawTx : SummaryRawTransaction)
    (minTransfer retainedBalance : Int) (feeInt : Nat) (anchor : String) :
    ∀ (balances : List Balance) (acc : List RawTransaction),
      (summaryLoop env sumRawTx minTransfer retainedBalance feeInt anchor balances acc).err
        ≠ some .miniTransferBelowRetained := by
  intro balances
  induction balances with
  | nil => intro acc; simp [summaryLoop]
  | cons ab rest ih =>
    intro acc
    unfold summaryLoop
    simp only
    split
    · exact ih acc
    · split
      · simp
      · split
        · simp
        · split
          · simp
          · split
            · exact ih acc
            · split
              · rename_i e he
                intro h
                simp only [Option.some.injEq] at h
                subst h
                exact createRawTransaction_err _ _ _ _ _ he
              · exact ih _

theorem summary_guard_signed (env : Env) (sumRawTx : SummaryRawTransaction) :
    ((CreateSimpleSummaryRawTransaction env sumRawTx).err = some .miniTransferBelowRetained ↔
      minTransferOf env sumRawTx < retainedOf env sumRawTx) ∧
    (minTransferOf env sumRawTx < retainedOf env sumRawTx →
      (CreateSimpleSummaryRawTransaction env sumRawTx).rawTxs = none ∧
      (CreateSimpleSummaryRawTransaction env sumRawTx).calls = []) ∧
    (¬ minTransferOf env sumRawTx < retainedOf env sumRawTx →
      (CreateSimpleSummaryRawTransaction env sumRawTx).calls.head? =
        some (Call.GetAddressList sumRawTx.AddressStartIndex sumRawTx.AddressLimit
          sumRawTx.AccountID)) ∧
    (minTransferOf env sumRawTx = retainedOf env sumRawTx →
      (CreateSimpleSummaryRawTransaction env sumRawTx).err ≠ some .miniTransferBelowRetained) := by
  have key : ¬ minTransferOf env sumRawTx < retainedOf env sumRawTx →
      (CreateSimpleSummaryRawTransaction env sumRawTx).err ≠ some .miniTransferBelowRetained ∧
      (CreateSimpleSummaryRawTransaction env sumRawTx).calls.head? =
        some (Call.GetAddressList sumRawTx.AddressStartIndex sumRawTx.AddressLimit
          sumRawTx.AccountID) := by
    intro hlt
    have hlt' : ¬ int64 (fromAmount env sumRawTx.MinTransfer)
        < int64 (fromAmount env sumRawTx.RetainedBalance) := hlt
    unfold CreateSimpleSummaryRawTransaction
    simp only [hlt', if_false]
    cases hA : env.GetAddressList sumRawTx.AddressStartIndex sumRawTx.AddressLimit
        sumRawTx.AccountID with
    | error e => simp
    | ok addresses =>
      simp only
      split
      · simp
      · cases hB : env.GetBalanceByAddress (addresses.map fun a => a.Address) with
        | error e => simp
        | ok balances =>
          simp only
          cases hC : env.getAnchor with
          | error e => simp
          | ok anchor =>
            simp only
            exact ⟨summaryLoop_err env sumRawTx _ _ _ anchor balances [], by simp⟩
  have pos : minTransferOf env sumRawTx < retainedOf env sumRawTx →
      (CreateSimpleSummaryRawTransaction env sumRawTx).err = some .miniTransferBelowRetained ∧
      (CreateSimpleSummaryRawTransaction env sumRawTx).rawTxs = none ∧
      (CreateSimpleSummaryRawTransaction env sumRawTx).calls = [] := by
    intro hlt
    have hlt' : int64 (fromAmount env sumRawTx.MinTransfer)
        < int64 (fromAmount env sumRawTx.RetainedBalance) := hlt
    unfold CreateSimpleSummaryRawTransaction
    simp [hlt']
  refine ⟨⟨fun h => ?_, fun h => (pos h).1⟩, fun h => (pos h).2, fun h => (key h).2, fun h => ?_⟩
  · by_contra hn
    exact (key hn).1 h
  · exact (key (by omega)).1

theorem verify_frame_witness :
    (verifyCheck exampleEnv builtTx).1 = false ∧
    ((VerifyBBCRawTransaction exampleEnv builtTx).rawTx.IsCompleted = false ∧
      (VerifyBBCRawTransaction exampleEnv builtTx).rawTx.RawHex = builtTx.RawHex ∧
      (VerifyBBCRawTransaction exampleEnv builtTx).rawTx = { builtTx with IsCompleted := false }) ∧
    (verifyCheck exampleEnv signedTx).1 = true ∧
    (verifyCheck exampleEnv signedTx).2 = "rawsig:hash" ∧
    ((VerifyBBCRawTransaction exampleEnv signedTx).rawTx.IsCompleted = true ∧
      (VerifyBBCRawTransaction exampleEnv signedTx).rawTx.RawHex = (verifyCheck exampleEnv signedTx).2 ∧
      (VerifyBBCRawTransaction exampleEnv signedTx).rawTx
        = { signedTx with IsCompleted := true, RawHex := (verifyCheck exampleEnv signedTx).2 }) :=
  ⟨by decide, (verify_frame exampleEnv builtTx).1 (by decide), by decide, by decide,
    (verify_frame exampleEnv signedTx).2 (by decide)⟩

theorem submit_guards_witness :
    signedTx.IsCompleted = false ∧
    ((SubmitRawTransaction exampleEnv signedTx).err ≠ none ∧
      (SubmitRawTransaction exampleEnv signedTx).tx = none ∧
      (SubmitRawTransaction exampleEnv signedTx).calls = [] ∧
      (SubmitRawTransaction exampleEnv signedTx).rawTx = signedTx) ∧
    verifiedTx.RawHex.length ≠ 0 ∧ verifiedTx.IsCompleted = true ∧
    exampleEnv.SendRawTransaction verifiedTx.RawHex = .ok "txid" ∧
    ((SubmitRawTransaction exampleEnv verifiedTx).err = none ∧
      (SubmitRawTransaction exampleEnv verifiedTx).rawTx
        = { verifiedTx with TxID := "txid", IsSubmit := true }) :=
  ⟨by decide, (submit_guards exampleEnv signedTx).1 (Or.inr (by decide)), by decide, by decide,
    rfl,
    ((submit_guards exampleEnv verifiedTx).2.2.2 (by decide) (by decide)).2 "txid" rfl⟩

theorem int64_le (n : Nat) : int64 n ≤ (n : Int) := by
  unfold int64
  have h := Nat.mod_le n (2 ^ 64)
  split <;> omega

theorem amountSum_le_units (l : List UnSpent) : amountSum l ≤ (unitsSum l : Int) := by
  induction l with
  | nil => simp [amountSum, unitsSum]
  | cons u rest ih =>
    have h := int64_le u.Amount
    simp only [amountSum, unitsSum, List.map_cons, List.sum_cons, Nat.cast_add] at ih ⊢
    omega

theorem amountSum_eq_units {l : List UnSpent} (h : ∀ u ∈ l, u.Amount < 2 ^ 63) :
    amountSum l = (unitsSum l : Int) := by
  induction l with
  | nil => simp [amountSum, unitsSum]
  | cons u rest ih =>
    have h1 := int64_of_lt (h u (List.mem_cons_self _ _))
    have h2 := ih (fun v hv => h v (List.mem_cons_of_mem _ hv))
    simp only [amountSum, unitsSum, List.map_cons, List.sum_cons, Nat.cast_add] at h2 ⊢
    omega

theorem getBalance_balance {env : Env} {address anchor : String} {bal : AddrBalance}
    (h : getBalance env address anchor = .ok bal) :
    bal.Balance = int64 (availOf env address) := by
  unfold getBalance at h
  unfold availOf
  cases hr : env.rpcGetbalance address with
  | error e => simp [hr] at h
  | ok l =>
    cases l with
    | nil =>
      simp only [hr, Except.ok.injEq] at h
      subst h
      simp [int64]
    | cons avail rest =>
      simp only [hr, Except.ok.injEq] at h
      subst h
      rfl

theorem queried_balance {env : Env} {rawTx : RawTransaction} {anchor : String}
    {queried : List AddrBalance} (hq : (queryBalances env rawTx).1 = .ok (anchor, queried)) :
    ∀ b ∈ queried, b.Balance = int64 (availOf env b.Address) := by
  obtain ⟨-, addresses, -, -, hbl, -⟩ := queryBalances_ok hq
  obtain ⟨new, h1, -, h3⟩ := balanceLoop_spec env anchor addresses 0 [] queried hbl
  simp only [List.nil_append] at h1
  subst h1
  intro b hb
  obtain ⟨a, -, bal, hbal, haddr, hB⟩ := forall₂_mem_right h3 b hb
  rw [hB, haddr, getBalance_balance hbal]

theorem neededAmount_eq {env : Env} {rawTx : RawTransaction}
    (hA : fromAmount env (firstTo rawTx.To).2 < 2 ^ 63)
    (hF : feeOf env rawTx.FeeRate < 2 ^ 63) :
    neededAmount env rawTx = (amountPlusFee env rawTx : Int) := by
  unfold neededAmount amountPlusFee
  rw [int64_of_lt hA, int64_of_lt hF]
  push_cast
  rfl

theorem enoughBalances_eq_funded {env : Env} {rawTx : RawTransaction} {l : List AddrBalance}
    (hA : fromAmount env (firstTo rawTx.To).2 < 2 ^ 63)
    (hF : feeOf env rawTx.FeeRate < 2 ^ 63)
    (hbal : ∀ b ∈ l, b.Balance = int64 (availOf env b.Address))
    (hB : ∀ b ∈ l, availOf env b.Address < 2 ^ 63) :
    enoughBalances (neededAmount env rawTx) l = fundedOf env (amountPlusFee env rawTx) l := by
  unfold enoughBalances fundedOf
  apply List.filter_congr
  intro b hb
  rw [neededAmount_eq hA hF, hbal b hb, int64_of_lt (hB b hb)]
  simp

/-- C18, as stated, fails: a minimum transfer of 0 with a retained balance of `2^63`
base units is accepted although the minimum transfer is strictly less, and a
minimum transfer of `2^63` with a retained balance of 1 is rejected although the
minimum transfer is larger. -/
theorem summary_guard_wraps :
    fromAmount exampleEnv (sweepTo "0" "9223372036854775808").MinTransfer
      < fromAmount exampleEnv (sweepTo "0" "9223372036854775808").RetainedBalance ∧
    (CreateSimpleSummaryRawTransaction exampleEnv (sweepTo "0" "9223372036854775808")).err
      = none ∧
    fromAmount exampleEnv (sweepTo "9223372036854775808" "1").RetainedBalance
      < fromAmount exampleEnv (sweepTo "9223372036854775808" "1").MinTransfer ∧
    (CreateSimpleSummaryRawTransaction exampleEnv (sweepTo "9223372036854775808" "1")).err
      = some .miniTransferBelowRetained ∧
    (CreateSimpleSummaryRawTransaction exampleEnv (sweepTo "9223372036854775808" "1")).rawTxs
      = none :=
  ⟨by decide, by decide, by decide, by decide, by decide⟩

/-- C18, amended: when the minimum transfer and the retained balance are below `2^63`
base units, `CreateSimpleSummaryRawTransaction` returns the minimum-transfer error
exactly when the minimum transfer is strictly less than the retained balance; it
then returns no slice and has made no call; otherwise, also when the two are
equal, it goes on to the address lookup. -/
theorem summary_rejects_below_retained (env : Env) (sumRawTx : SummaryRawTransaction)
    (hM : fromAmount env sumRawTx.MinTransfer < 2 ^ 63)
    (hR : fromAmount env sumRawTx.RetainedBalance < 2 ^ 63) :
    ((CreateSimpleSummaryRawTransaction env sumRawTx).err = some .miniTransferBelowRetained ↔
      fromAmount env sumRawTx.MinTransfer < fromAmount env sumRawTx.RetainedBalance) ∧
    (fromAmount env sumRawTx.MinTransfer < fromAmount env sumRawTx.RetainedBalance →
      (CreateSimpleSummaryRawTransaction env sumRawTx).rawTxs = none ∧
      (CreateSimpleSummaryRawTransaction env sumRawTx).calls = []) ∧
    (¬ fromAmount env sumRawTx.MinTransfer < fromAmount env sumRawTx.RetainedBalance →
      (CreateSimpleSummaryRawTransaction env sumRawTx).calls.head? =
        some (Call.GetAddressList sumRawTx.AddressStartIndex sumRawTx.AddressLimit
          sumRawTx.AccountID)) ∧
    (fromAmount env sumRawTx.MinTransfer = fromAmount env sumRawTx.RetainedBalance →
      (CreateSimpleSummaryRawTransaction env sumRawTx).err ≠ some .miniTransferBelowRetained) := by
  have hlt : minTransferOf env sumRawTx < retainedOf env sumRawTx ↔
      fromAmount env sumRawTx.MinTransfer < fromAmount env sumRawTx.RetainedBalance := by
    unfold minTransferOf retainedOf
    rw [int64_of_lt hM, int64_of_lt hR]
    exact Int.ofNat_lt
  have heq : fromAmount env sumRawTx.MinTransfer = fromAmount env sumRawTx.RetainedBalance →
      minTransferOf env sumRawTx = retainedOf env sumRawTx := by
    intro h
    unfold minTransferOf retainedOf
    rw [h]
  obtain ⟨h1, h2, h3, h4⟩ := summary_guard_signed env sumRawTx
  exact ⟨h1.trans hlt, fun h => h2 (hlt.mpr h), fun h => h3 (fun h5 => h (hlt.mp h5)),
    fun h => h4 (heq h)⟩

theorem summary_rejects_below_retained_witness :
    fromAmount exampleEnv (sweepTo "1" "2").MinTransfer < 2 ^ 63 ∧
    fromAmount exampleEnv (sweepTo "1" "2").RetainedBalance < 2 ^ 63 ∧
    fromAmount exampleEnv (sweepTo "1" "2").MinTransfer
      < fromAmount exampleEnv (sweepTo "1" "2").RetainedBalance ∧
    (CreateSimpleSummaryRawTransaction exampleEnv (sweepTo "1" "2")).err
      = some .miniTransferBelowRetained ∧
    ((CreateSimpleSummaryRawTransaction exampleEnv (sweepTo "1" "2")).rawTxs = none ∧
      (CreateSimpleSummaryRawTransaction exampleEnv (sweepTo "1" "2")).calls = []) ∧
    fromAmount exampleEnv (sweepTo "2" "2").MinTransfer
      = fromAmount exampleEnv (sweepTo "2" "2").RetainedBalance ∧
    (CreateSimpleSummaryRawTransaction exampleEnv (sweepTo "2" "2")).err
      ≠ some .miniTransferBelowRetained ∧
    (CreateSimpleSummaryRawTransaction exampleEnv (sweepTo "2" "2")).err = none :=
  ⟨by decide, by decide, by decide,
    (summary_rejects_below_retained exampleEnv (sweepTo "1" "2") (by decide) (by decide)).1.mpr
      (by decide),
    (summary_rejects_below_retained exampleEnv (sweepTo "1" "2") (by decide) (by decide)).2.1
      (by decide),
    by decide,
    (summary_rejects_below_retained exampleEnv (sweepTo "2" "2") (by decide) (by decide)).2.2.2
      (by decide),
    by decide⟩

theorem sum_balances_units {env : Env} {l : List AddrBalance}
    (hbal : ∀ b ∈ l, b.Balance = int64 (availOf env b.Address))
    (hB : ∀ b ∈ l, availOf env b.Address < 2 ^ 63) :
    (l.map fun b => b.Balance).sum = ((l.map fun b => availOf env b.Address).sum : Nat) := by
  induction l with
  | nil => simp
  | cons b rest ih =>
    have h1 := hbal b (List.mem_cons_self _ _)
    rw [int64_of_lt (hB b (List.mem_cons_self _ _))] at h1
    have h2 := ih (fun c hc => hbal c (List.mem_cons_of_mem _ hc))
      (fun c hc => hB c (List.mem_cons_of_mem _ hc))
    simp only [List.map_cons, List.sum_cons, Nat.cast_add, h1, h2]

/-- C4, as stated, fails: with a fee of `2^63` base units no address of the account
has a balance of amount plus fee, and all balances together are below it, yet
`CreateBBCRawTransaction` returns nil and builds a transaction that spends one
output of 60 units. -/
theorem wrapped_fee_builds :
    (queryBalances highFeeEnv (payTo "80")).1
      = .ok ("genesis", [⟨"A", 100, 0⟩, ⟨"B", 50, 1⟩]) ∧
    (∀ b ∈ [(⟨"A", 100, 0⟩ : AddrBalance), ⟨"B", 50, 1⟩],
      availOf highFeeEnv b.Address < amountPlusFee highFeeEnv (payTo "80")) ∧
    ([(⟨"A", 100, 0⟩ : AddrBalance), ⟨"B", 50, 1⟩].map fun b => availOf highFeeEnv b.Address).sum
      < amountPlusFee highFeeEnv (payTo "80") ∧
    (CreateBBCRawTransaction highFeeEnv (payTo "80")).err = none ∧
    (CreateBBCRawTransaction highFeeEnv (payTo "80")).rawTx.IsBuilt = true ∧
    (CreateBBCRawTransaction highFeeEnv (payTo "80")).rawTx.Vins = [⟨"t1", 0⟩] :=
  ⟨rfl, by decide, by decide, by decide, by decide, by decide⟩

/-- C4, amended: when the balances were queried, the amount, the fee and every balance
are below `2^63` base units, and no address has a balance of amount plus fee or
more, `CreateBBCRawTransaction` returns an error, leaves the request untouched and
makes no further call; the error is the cannot-be-sent-in-one-transaction error
when the balances sum to amount plus fee or more, and the insufficient-balance
error exactly when they sum to less. -/
theorem no_funded_address_error (env : Env) (rawTx : RawTransaction) (anchor : String)
    (queried : List AddrBalance)
    (hq : (queryBalances env rawTx).1 = .ok (anchor, queried))
    (hA : fromAmount env (firstTo rawTx.To).2 < 2 ^ 63)
    (hF : feeOf env rawTx.FeeRate < 2 ^ 63)
    (hB : ∀ b ∈ queried, availOf env b.Address < 2 ^ 63)
    (hnone : ∀ b ∈ queried, availOf env b.Address < amountPlusFee env rawTx) :
    (CreateBBCRawTransaction env rawTx).rawTx = rawTx ∧
    (CreateBBCRawTransaction env rawTx).calls = (queryBalances env rawTx).2 ∧
    (amountPlusFee env rawTx ≤ (queried.map fun b => availOf env b.Address).sum →
      (CreateBBCRawTransaction env rawTx).err
        = some (.cannotSendInOneTransaction (firstTo rawTx.To).2)) ∧
    ((queried.map fun b => availOf env b.Address).sum < amountPlusFee env rawTx →
      (CreateBBCRawTransaction env rawTx).err = some (.balanceNotEnough (firstTo rawTx.To).2)) ∧
    (∀ s, (CreateBBCRawTransaction env rawTx).err = some (.balanceNotEnough s) →
      (queried.map fun b => availOf env b.Address).sum < amountPlusFee env rawTx) := by
  have hbal := queried_balance hq
  have hN := neededAmount_eq hA hF
  have hempty : (enoughBalances (neededAmount env rawTx) (sortSlice env queried)).length = 0 := by
    rw [List.length_eq_zero, enoughBalances, List.filter_eq_nil_iff]
    intro b hb
    have hb1 := mem_sortSlice.mp hb
    have h1 := hnone b hb1
    simp only [ge_iff_le, decide_eq_true_eq, not_le]
    rw [hN, hbal b hb1, int64_of_lt (hB b hb1)]
    exact Int.ofNat_lt.mpr h1
  have hT := totalBalance_sortSlice env queried
  rw [sum_balances_units hbal hB] at hT
  unfold CreateBBCRawTransaction
  rcases hqq : queryBalances env rawTx with ⟨r, c3⟩
  rw [hqq] at hq
  simp only at hq
  subst hq
  simp only [hempty, if_true, hT]
  rw [hN]
  by_cases htot : amountPlusFee env rawTx ≤ (queried.map fun b => availOf env b.Address).sum
  · have htot1 : (((queried.map fun b => availOf env b.Address).sum : Nat) : Int)
        ≥ (amountPlusFee env rawTx : Int) := Int.ofNat_le.mpr htot
    rw [if_pos htot1]
    exact ⟨rfl, rfl, fun _ => rfl, fun h => absurd h (not_lt.mpr htot),
      fun s h => by simp at h⟩
  · have htot1 : ¬ (((queried.map fun b => availOf env b.Address).sum : Nat) : Int)
        ≥ (amountPlusFee env rawTx : Int) := fun h => htot (Int.ofNat_le.mp h)
    rw [if_neg htot1]
    exact ⟨rfl, rfl, fun h => absurd h htot, fun _ => rfl, fun _ _ => not_le.mp htot⟩

theorem no_funded_address_error_witness :
    (queryBalances exampleEnv (payTo "120")).1
      = .ok ("genesis", [⟨"A", 100, 0⟩, ⟨"B", 50, 1⟩]) ∧
    fromAmount exampleEnv (firstTo (payTo "120").To).2 < 2 ^ 63 ∧
    feeOf exampleEnv (payTo "120").FeeRate < 2 ^ 63 ∧
    (∀ b ∈ [(⟨"A", 100, 0⟩ : AddrBalance), ⟨"B", 50, 1⟩],
      availOf exampleEnv b.Address < 2 ^ 63) ∧
    (∀ b ∈ [(⟨"A", 100, 0⟩ : AddrBalance), ⟨"B", 50, 1⟩],
      availOf exampleEnv b.Address < amountPlusFee exampleEnv (payTo "120")) ∧
    amountPlusFee exampleEnv (payTo "120")
      ≤ ([(⟨"A", 100, 0⟩ : AddrBalance), ⟨"B", 50, 1⟩].map
          fun b => availOf exampleEnv b.Address).sum ∧
    (CreateBBCRawTransaction exampleEnv (payTo "120")).rawTx = payTo "120" ∧
    (CreateBBCRawTransaction exampleEnv (payTo "120")).calls
      = (queryBalances exampleEnv (payTo "120")).2 ∧
    (CreateBBCRawTransaction exampleEnv (payTo "120")).err
      = some (.cannotSendInOneTransaction "120") ∧
    ([(⟨"A", 100, 0⟩ : AddrBalance), ⟨"B", 50, 1⟩].map
          fun b => availOf exampleEnv b.Address).sum < amountPlusFee exampleEnv (payTo "150") ∧
    (CreateBBCRawTransaction exampleEnv (payTo "150")).err = some (.balanceNotEnough "150") :=
  ⟨rfl, by decide, by decide, by decide, by decide, by decide,
    (no_funded_address_error exampleEnv (payTo "120") "genesis" _ rfl (by decide) (by decide)
      (by decide) (by decide)).1,
    (no_funded_address_error exampleEnv (payTo "120") "genesis" _ rfl (by decide) (by decide)
      (by decide) (by decide)).2.1,
    (no_funded_address_error exampleEnv (payTo "120") "genesis" _ rfl (by decide) (by decide)
      (by decide) (by decide)).2.2.1 (by decide),
    by decide,
    (no_funded_address_error exampleEnv (payTo "150") "genesis" _ rfl (by decide) (by decide)
      (by decide) (by decide)).2.2.2.1 (by decide)⟩

theorem create_selected {env : Env} {rawTx : RawTransaction} {anchor : String}
    {queried : List AddrBalance}
    (hq : (queryBalances env rawTx).1 = .ok (anchor, queried))
    (hne : enoughBalances (neededAmount env rawTx) (sortSlice env queried) ≠ []) :
    (CreateBBCRawTransaction env rawTx).rawTx.TxFrom =
      [(selectLoop env anchor (poolOf env) (neededAmount env rawTx)
        (enoughBalances (neededAmount env rawTx) (sortSlice env queried)) "" []).1] ∧
    Call.CreateEmptyTransactionAndHash
        (selectLoop env anchor (poolOf env) (neededAmount env rawTx)
          (enoughBalances (neededAmount env rawTx) (sortSlice env queried)) "" []).2.1
        (firstTo rawTx.To).1 (fromAmount env (firstTo rawTx.To).2) (feeOf env rawTx.FeeRate)
      ∈ (CreateBBCRawTransaction env rawTx).calls ∧
    (CreateBBCRawTransaction env rawTx).calls.filter isUtxoLookup =
      (selectLoop env anchor (poolOf env) (neededAmount env rawTx)
        (enoughBalances (neededAmount env rawTx) (sortSlice env queried)) "" []).2.2.filter
          isUtxoLookup ∧
    ((CreateBBCRawTransaction env rawTx).err = none →
      (CreateBBCRawTransaction env rawTx).rawTx.Vins =
        (selectLoop env anchor (poolOf env) (neededAmount env rawTx)
          (enoughBalances (neededAmount env rawTx) (sortSlice env queried)) "" []).2.1 ∧
      (CreateBBCRawTransaction env rawTx).rawTx.IsBuilt = true ∧
      ∃ r, env.CreateEmptyTransactionAndHash 0 anchor
        (selectLoop env anchor (poolOf env) (neededAmount env rawTx)
          (enoughBalances (neededAmount env rawTx) (sortSlice env queried)) "" []).2.1
        (firstTo rawTx.To).1 (fromAmount env (firstTo rawTx.To).2) (feeOf env rawTx.FeeRate)
        rawTx.memo = .ok r) ∧
    (∀ s, (CreateBBCRawTransaction env rawTx).err ≠ some (.balanceNotEnough s)) ∧
    (∀ s, (CreateBBCRawTransaction env rawTx).err ≠ some (.cannotSendInOneTransaction s)) ∧
    ((∃ r, env.CreateEmptyTransactionAndHash 0 anchor
        (selectLoop env anchor (poolOf env) (neededAmount env rawTx)
          (enoughBalances (neededAmount env rawTx) (sortSlice env queried)) "" []).2.1
        (firstTo rawTx.To).1 (fromAmount env (firstTo rawTx.To).2) (feeOf env rawTx.FeeRate)
        rawTx.memo = .ok r) →
      (∃ r, env.GetAddress
        (selectLoop env anchor (poolOf env) (neededAmount env rawTx)
          (enoughBalances (neededAmount env rawTx) (sortSlice env queried)) "" []).1 = .ok r) →
      (CreateBBCRawTransaction env rawTx).err = none) := by
  have hqc := queryBalances_calls env rawTx
  unfold CreateBBCRawTransaction
  rcases hqq : queryBalances env rawTx with ⟨r, c3⟩
  rw [hqq] at hq hqc
  simp only at hq
  subst hq
  have hl : ¬ (enoughBalances (neededAmount env rawTx) (sortSlice env queried)).length = 0 := by
    intro h; exact hne (List.length_eq_zero.mp h)
  simp only [hl, if_false]
  simp only at hqc
  cases hE : env.CreateEmptyTransactionAndHash 0 anchor
      (selectLoop env anchor (poolOf env) (neededAmount env rawTx)
        (enoughBalances (neededAmount env rawTx) (sortSlice env queried)) "" []).2.1
      (firstTo rawTx.To).1 (fromAmount env (firstTo rawTx.To).2) (feeOf env rawTx.FeeRate)
      rawTx.memo with
  | error e =>
    simp only
    refine ⟨trivial, by simp, by simp [List.filter_append, hqc, isUtxoLookup], by simp, by simp,
      by simp, ?_⟩
    rintro ⟨r, hr⟩
    simp at hr
  | ok r =>
    obtain ⟨emptyTrans, hash⟩ := r
    simp only
    cases hG : env.GetAddress
        (selectLoop env anchor (poolOf env) (neededAmount env rawTx)
          (enoughBalances (neededAmount env rawTx) (sortSlice env queried)) "" []).1 with
    | error e =>
      simp only
      refine ⟨trivial, by simp, by simp [List.filter_append, hqc, isUtxoLookup], by simp, by simp,
        by simp, ?_⟩
      rintro - ⟨r, hr⟩
      simp at hr
    | ok addr =>
      simp only
      refine ⟨trivial, by simp, by simp [List.filter_append, hqc, isUtxoLookup], ?_, by simp,
        by simp, ?_⟩
      · simp
      · simp

theorem take_units {avail : List UnSpent} (hU : ∀ u ∈ avail, u.Amount < 2 ^ 63) (j : Nat) :
    amountSum (avail.take j) = (unitsSum (avail.take j) : Int) :=
  amountSum_eq_units fun u hu => hU u (List.mem_of_mem_take hu)

theorem noCover_not_canPay {needed : Nat} {avail : List UnSpent}
    (hU : ∀ u ∈ avail, u.Amount < 2 ^ 63) (h : NoCover (needed : Int) avail) :
    ¬ CanPay needed avail := by
  rintro ⟨hne, hle⟩
  have := h avail.length (List.length_pos.mpr hne) le_rfl
  rw [take_units hU, List.take_length] at this
  exact absurd (Int.ofNat_lt.mp this) (not_lt.mpr hle)

theorem unitsSum_take_le (l : List UnSpent) (k : Nat) : unitsSum (l.take k) ≤ unitsSum l := by
  have h : unitsSum l = unitsSum (l.take k) + unitsSum (l.drop k) := by
    unfold unitsSum
    rw [← List.sum_append, ← List.map_append, List.take_append_drop]
  omega

theorem shortestCover_units {needed : Nat} {avail : List UnSpent} {vins : List Vin}
    (hU : ∀ u ∈ avail, u.Amount < 2 ^ 63)
    (h : IsShortestNonemptyCover (needed : Int) avail vins) :
    IsShortestNonemptyCoverUnits needed avail vins := by
  obtain ⟨k, h0, h1, hv, hs, hmin⟩ := h
  refine ⟨k, h0, h1, hv, ?_, ?_⟩
  · rw [take_units hU] at hs
    exact Int.ofNat_le.mp hs
  · intro j hj0 hj1
    have := hmin j hj0 hj1
    rw [take_units hU] at this
    exact Int.ofNat_lt.mp this

theorem unit_le_unitsSum {l : List UnSpent} {u : UnSpent} (h : u ∈ l) :
    u.Amount ≤ unitsSum l := by
  induction l with
  | nil => simp at h
  | cons v rest ih =>
    simp only [unitsSum, List.map_cons, List.sum_cons] at ih ⊢
    rcases List.mem_cons.mp h with rfl | h1
    · omega
    · have := ih h1
      omega

/-- C6, as stated, fails: with a fee of `2^63` base units `CreateBBCRawTransaction`
returns nil and sets `IsBuilt` for a payment of 80 from `A` whose only input is
the output of 60 units; all outputs of `A` together hold 100 units, less than
amount plus fee. -/
theorem wrapped_fee_underfunds :
    (CreateBBCRawTransaction highFeeEnv (payTo "80")).err = none ∧
    (CreateBBCRawTransaction highFeeEnv (payTo "80")).rawTx.IsBuilt = true ∧
    (CreateBBCRawTransaction highFeeEnv (payTo "80")).rawTx.TxFrom = ["A"] ∧
    (CreateBBCRawTransaction highFeeEnv (payTo "80")).rawTx.Vins = [vinOf ⟨"t1", 0, 60⟩] ∧
    utxosOf highFeeEnv "A" "genesis" = [⟨"t0", 0, 10⟩, ⟨"t1", 0, 60⟩, ⟨"t2", 1, 30⟩] ∧
    unitsSum [⟨"t1", 0, 60⟩] < amountPlusFee highFeeEnv (payTo "80") ∧
    unitsSum (utxosOf highFeeEnv "A" "genesis") < amountPlusFee highFeeEnv (payTo "80") :=
  ⟨by decide, by decide, by decide, by decide, by decide, by decide, by decide⟩

/-- C6, amended: when the amount and the fee are below `2^63` base units, every
transaction that `CreateBBCRawTransaction` builds (it returns nil and sets
`IsBuilt`) carries the inputs that the encoder accepted; when it has inputs, they
spend an initial run of the free outputs of its source address, an address of the
account, whose amounts sum to amount plus fee or more; and it has inputs whenever
the encoder refuses an empty input list for this payment. -/
theorem built_inputs_cover (env : Env) (rawTx : RawTransaction)
    (hA : fromAmount env (firstTo rawTx.To).2 < 2 ^ 63)
    (hF : feeOf env rawTx.FeeRate < 2 ^ 63)
    (hok : (CreateBBCRawTransaction env rawTx).err = none) :
    (CreateBBCRawTransaction env rawTx).rawTx.IsBuilt = true ∧
    ∃ anchor queried,
      (queryBalances env rawTx).1 = .ok (anchor, queried) ∧
      (∃ r, env.CreateEmptyTransactionAndHash 0 anchor
        (CreateBBCRawTransaction env rawTx).rawTx.Vins (firstTo rawTx.To).1
        (fromAmount env (firstTo rawTx.To).2) (feeOf env rawTx.FeeRate) rawTx.memo = .ok r) ∧
      ((CreateBBCRawTransaction env rawTx).rawTx.Vins ≠ [] →
        ∃ c ∈ queried, ∃ k,
          (CreateBBCRawTransaction env rawTx).rawTx.TxFrom = [c.Address] ∧
          (CreateBBCRawTransaction env rawTx).rawTx.Vins
            = ((availableOf env anchor c).take k).map vinOf ∧
          amountPlusFee env rawTx ≤ unitsSum ((availableOf env anchor c).take k)) ∧
      ((∃ e, env.CreateEmptyTransactionAndHash 0 anchor [] (firstTo rawTx.To).1
          (fromAmount env (firstTo rawTx.To).2) (feeOf env rawTx.FeeRate) rawTx.memo
            = .error e) →
        (CreateBBCRawTransaction env rawTx).rawTx.Vins ≠ []) := by
  obtain ⟨anchor, queried, hq, hne, -⟩ := create_built hok
  obtain ⟨hF1, -, -, hS, -⟩ := create_selected hq hne
  obtain ⟨hV, hB, hE⟩ := hS hok
  refine ⟨hB, anchor, queried, hq, by rw [hV]; exact hE, ?_, ?_⟩
  · intro hvne
    rw [hV] at hvne
    rcases selectLoop_spec env anchor (poolOf env) (neededAmount env rawTx)
        (enoughBalances (neededAmount env rawTx) (sortSlice env queried)) "" with
      ⟨h1, -⟩ | ⟨l1, c, l2, tmp, hsplit, -, hsc, -, h5, h6, -⟩
    · exact absurd h1 hvne
    · have hc : c ∈ enoughBalances (neededAmount env rawTx) (sortSlice env queried) := by
        rw [hsplit]; simp
      obtain ⟨k, -, -, hv, hs, -⟩ := scanOf_some_cover hsc
      refine ⟨c, mem_sortSlice.mp (mem_enoughBalances.mp hc).1, k, by rw [hF1, h6],
        by rw [hV, h5, hv], ?_⟩
      have h2 := amountSum_le_units ((availableOf env anchor c).take k)
      rw [neededAmount_eq hA hF] at hs
      exact Int.ofNat_le.mp (le_trans hs h2)
  · rintro ⟨e, he⟩ hnil
    obtain ⟨r, hr⟩ := hE
    rw [← hV, hnil, he] at hr
    exact absurd hr (by simp)

theorem built_inputs_cover_witness :
    fromAmount strictEnv (firstTo (payTo "80").To).2 < 2 ^ 63 ∧
    feeOf strictEnv (payTo "80").FeeRate < 2 ^ 63 ∧
    (CreateBBCRawTransaction strictEnv (payTo "80")).err = none ∧
    (CreateBBCRawTransaction strictEnv (payTo "80")).rawTx.Vins
      = [vinOf ⟨"t0", 0, 10⟩, vinOf ⟨"t1", 0, 60⟩, vinOf ⟨"t2", 1, 30⟩] ∧
    amountPlusFee strictEnv (payTo "80") = 85 ∧
    (∃ e, strictEnv.CreateEmptyTransactionAndHash 0 "genesis" [] (firstTo (payTo "80").To).1
      (fromAmount strictEnv (firstTo (payTo "80").To).2) (feeOf strictEnv (payTo "80").FeeRate)
      (payTo "80").memo = .error e) ∧
    ((CreateBBCRawTransaction strictEnv (payTo "80")).rawTx.IsBuilt = true ∧
    ∃ anchor queried,
      (queryBalances strictEnv (payTo "80")).1 = .ok (anchor, queried) ∧
      (∃ r, strictEnv.CreateEmptyTransactionAndHash 0 anchor
        (CreateBBCRawTransaction strictEnv (payTo "80")).rawTx.Vins (firstTo (payTo "80").To).1
        (fromAmount strictEnv (firstTo (payTo "80").To).2) (feeOf strictEnv (payTo "80").FeeRate)
        (payTo "80").memo = .ok r) ∧
      ((CreateBBCRawTransaction strictEnv (payTo "80")).rawTx.Vins ≠ [] →
        ∃ c ∈ queried, ∃ k,
          (CreateBBCRawTransaction strictEnv (payTo "80")).rawTx.TxFrom = [c.Address] ∧
          (CreateBBCRawTransaction strictEnv (payTo "80")).rawTx.Vins
            = ((availableOf strictEnv anchor c).take k).map vinOf ∧
          amountPlusFee strictEnv (payTo "80")
            ≤ unitsSum ((availableOf strictEnv anchor c).take k)) ∧
      ((∃ e, strictEnv.CreateEmptyTransactionAndHash 0 anchor [] (firstTo (payTo "80").To).1
          (fromAmount strictEnv (firstTo (payTo "80").To).2)
          (feeOf strictEnv (payTo "80").FeeRate) (payTo "80").memo = .error e) →
        (CreateBBCRawTransaction strictEnv (payTo "80")).rawTx.Vins ≠ [])) :=
  ⟨by decide, by decide, by decide, by decide, by decide, ⟨_, rfl⟩,
    built_inputs_cover strictEnv (payTo "80") (by decide) (by decide) (by decide)⟩

/-- C16, as stated, fails: the address `A` of `brimEnv` holds `2^63` base units in one
free output, exactly the amount plus the fee of the request, and
`CreateBBCRawTransaction` returns the insufficient-balance error. -/
theorem exact_balance_wraps :
    (queryBalances brimEnv (payTo "9223372036854775803")).1
      = .ok ("genesis", [⟨"A", -9223372036854775808, 0⟩, ⟨"B", 50, 1⟩]) ∧
    availOf brimEnv "A" = amountPlusFee brimEnv (payTo "9223372036854775803") ∧
    unitsSum (availableOf brimEnv "genesis" ⟨"A", -9223372036854775808, 0⟩)
      = availOf brimEnv "A" ∧
    (CreateBBCRawTransaction brimEnv (payTo "9223372036854775803")).err
      = some (.balanceNotEnough "9223372036854775803") :=
  ⟨rfl, by decide, by decide, by decide⟩

/-- C16, amended: when an address of the account has a balance exactly equal to amount
plus fee, below `2^63` base units, it is among the funded candidates and
`CreateBBCRawTransaction` returns neither the insufficient-balance nor the
cannot-be-sent-in-one-transaction error.  When moreover amount plus fee is
positive, the free outputs of the address sum to its balance, the encoder accepts
every non-empty initial run of the free outputs of an address of the account as
the inputs of this payment, and the wallet knows the addresses of the account,
`CreateBBCRawTransaction` returns nil and a built transaction with inputs, from an
address of the account whose balance covers amount plus fee. -/
theorem exact_balance_is_funded (env : Env) (rawTx : RawTransaction) (anchor : String)
    (queried : List AddrBalance) (b : AddrBalance)
    (hq : (queryBalances env rawTx).1 = .ok (anchor, queried))
    (hb : b ∈ queried)
    (hbal : availOf env b.Address = amountPlusFee env rawTx)
    (hlt : amountPlusFee env rawTx < 2 ^ 63) :
    b ∈ fundedOf env (amountPlusFee env rawTx) (sortSlice env queried) ∧
    b ∈ enoughBalances (neededAmount env rawTx) (sortSlice env queried) ∧
    (∀ s, (CreateBBCRawTransaction env rawTx).err ≠ some (.balanceNotEnough s)) ∧
    (∀ s, (CreateBBCRawTransaction env rawTx).err ≠ some (.cannotSendInOneTransaction s)) ∧
    (0 < amountPlusFee env rawTx →
      unitsSum (availableOf env anchor b) = availOf env b.Address →
      (∀ c ∈ queried, ∀ k, 0 < k → k ≤ (availableOf env anchor c).length →
        ∃ r, env.CreateEmptyTransactionAndHash 0 anchor
          (((availableOf env anchor c).take k).map vinOf) (firstTo rawTx.To).1
          (fromAmount env (firstTo rawTx.To).2) (feeOf env rawTx.FeeRate) rawTx.memo = .ok r) →
      (∀ c ∈ queried, ∃ r, env.GetAddress c.Address = .ok r) →
      (CreateBBCRawTransaction env rawTx).err = none ∧
      (CreateBBCRawTransaction env rawTx).rawTx.IsBuilt = true ∧
      (CreateBBCRawTransaction env rawTx).rawTx.Vins ≠ [] ∧
      ∃ c ∈ queried, (CreateBBCRawTransaction env rawTx).rawTx.TxFrom = [c.Address] ∧
        amountPlusFee env rawTx ≤ availOf env c.Address) := by
  have hA : fromAmount env (firstTo rawTx.To).2 < 2 ^ 63 := by
    unfold amountPlusFee at hlt; omega
  have hF : feeOf env rawTx.FeeRate < 2 ^ 63 := by
    unfold amountPlusFee at hlt; omega
  have hN := neededAmount_eq hA hF
  have hbalq := queried_balance hq
  have hbB : b.Balance = neededAmount env rawTx := by
    rw [hbalq b hb, hbal, int64_of_lt hlt, hN]
  have hmem : b ∈ enoughBalances (neededAmount env rawTx) (sortSlice env queried) :=
    mem_enoughBalances.mpr ⟨mem_sortSlice.mpr hb, le_of_eq hbB.symm⟩
  have hfund : b ∈ fundedOf env (amountPlusFee env rawTx) (sortSlice env queried) := by
    unfold fundedOf
    rw [List.mem_filter]
    exact ⟨mem_sortSlice.mpr hb, by simp [hbal]⟩
  obtain ⟨hF1, -, -, hS, hE1, hE2, hOK⟩ := create_selected hq (List.ne_nil_of_mem hmem)
  refine ⟨hfund, hmem, hE1, hE2, ?_⟩
  intro hpos hsum henc haddr
  have hUb : ∀ u ∈ availableOf env anchor b, u.Amount < 2 ^ 63 := by
    intro u hu
    have := unit_le_unitsSum hu
    omega
  rcases selectLoop_spec env anchor (poolOf env) (neededAmount env rawTx)
      (enoughBalances (neededAmount env rawTx) (sortSlice env queried)) "" with
    ⟨-, -, -, hall⟩ | ⟨l1, c, l2, tmp, hsplit, -, hsc, hne, h5, h6, -⟩
  · exfalso
    have hno := scanOf_none_noCover (hall b hmem)
    rw [hN] at hno
    refine noCover_not_canPay hUb hno ⟨?_, by rw [hsum, hbal]⟩
    intro h0
    rw [h0] at hsum
    simp only [unitsSum, List.map_nil, List.sum_nil] at hsum
    omega
  · have hc : c ∈ enoughBalances (neededAmount env rawTx) (sortSlice env queried) := by
      rw [hsplit]; simp
    have hcq : c ∈ queried := mem_sortSlice.mp (mem_enoughBalances.mp hc).1
    obtain ⟨k, hk0, hk1, hv, -, -⟩ := scanOf_some_cover hsc
    have hok : (CreateBBCRawTransaction env rawTx).err = none := by
      apply hOK
      · rw [h5, hv]
        exact henc c hcq k hk0 hk1
      · rw [h6]
        exact haddr c hcq
    obtain ⟨hV, hB, -⟩ := hS hok
    refine ⟨hok, hB, by rw [hV, h5]; exact hne, c, hcq, by rw [hF1, h6], ?_⟩
    have h1 := (mem_enoughBalances.mp hc).2
    rw [hN, hbalq c hcq] at h1
    have h2 := int64_le (availOf env c.Address)
    exact Int.ofNat_le.mp (le_trans h1 h2)

theorem exact_balance_is_funded_witness :
    (queryBalances strictEnv (payTo "95")).1 = .ok ("genesis", [⟨"A", 100, 0⟩, ⟨"B", 50, 1⟩]) ∧
    (⟨"A", 100, 0⟩ : AddrBalance) ∈ [(⟨"A", 100, 0⟩ : AddrBalance), ⟨"B", 50, 1⟩] ∧
    availOf strictEnv "A" = amountPlusFee strictEnv (payTo "95") ∧
    amountPlusFee strictEnv (payTo "95") < 2 ^ 63 ∧
    0 < amountPlusFee strictEnv (payTo "95") ∧
    unitsSum (availableOf strictEnv "genesis" ⟨"A", 100, 0⟩) = availOf strictEnv "A" ∧
    (∀ t s f m, ∃ e, strictEnv.CreateEmptyTransactionAndHash 0 "genesis" [] t s f m = .error e) ∧
    (∃ e, strictEnv.GetAddress "" = .error e) ∧
    (CreateBBCRawTransaction strictEnv (payTo "95")).rawTx.TxFrom = ["A"] ∧
    (CreateBBCRawTransaction strictEnv (payTo "95")).rawTx.Vins
      = [⟨"t0", 0⟩, ⟨"t1", 0⟩, ⟨"t2", 1⟩] ∧
    ((CreateBBCRawTransaction strictEnv (payTo "95")).err = none ∧
      (CreateBBCRawTransaction strictEnv (payTo "95")).rawTx.IsBuilt = true ∧
      (CreateBBCRawTransaction strictEnv (payTo "95")).rawTx.Vins ≠ [] ∧
      ∃ c ∈ [(⟨"A", 100, 0⟩ : AddrBalance), ⟨"B", 50, 1⟩],
        (CreateBBCRawTransaction strictEnv (payTo "95")).rawTx.TxFrom = [c.Address] ∧
        amountPlusFee strictEnv (payTo "95") ≤ availOf strictEnv c.Address) :=
  ⟨rfl, by decide, by decide, by decide, by decide, by decide,
    fun _ _ _ _ => ⟨_, rfl⟩, ⟨_, rfl⟩, by decide, by decide,
    (exact_balance_is_funded strictEnv (payTo "95") "genesis" _ ⟨"A", 100, 0⟩ rfl (by decide)
      (by decide) (by decide)).2.2.2.2 (by decide) (by decide)
      (by
        intro c _ k hk0 hk1
        refine ⟨("raw", "hash"), ?_⟩
        have hlen : ¬ (((availableOf strictEnv "genesis" c).take k).map vinOf).length = 0 := by
          rw [List.length_map, List.length_take]
          omega
        show (if (((availableOf strictEnv "genesis" c).take k).map vinOf).length = 0
          then Except.error "Miss input!" else Except.ok ("raw", "hash")) = _
        rw [if_neg hlen])
      (by
        intro c hc
        rcases List.mem_cons.mp hc with rfl | hc
        · exact ⟨_, rfl⟩
        · rcases List.mem_cons.mp hc with rfl | hc
          · exact ⟨_, rfl⟩
          · simp at hc)⟩

/-- C3, as stated, fails: for a payment of 0 with fee 0 the empty run of the free
outputs of `A` already holds amount plus fee, yet the selector spends the first
free output of `A`; and with a fee of `2^63` base units the source of a payment
of 80 is `A`, whose balance of 100 is below amount plus fee, as is every balance
of the account. -/
theorem first_fit_fails :
    (CreateBBCRawTransaction exampleEnv zeroPay).err = none ∧
    (CreateBBCRawTransaction exampleEnv zeroPay).rawTx.TxFrom = ["A"] ∧
    (CreateBBCRawTransaction exampleEnv zeroPay).rawTx.Vins = [vinOf ⟨"t1", 0, 60⟩] ∧
    ¬ IsShortestCoverUnits (amountPlusFee exampleEnv zeroPay)
        (availableOf exampleEnv "genesis" ⟨"A", 100, 0⟩)
        (CreateBBCRawTransaction exampleEnv zeroPay).rawTx.Vins ∧
    (CreateBBCRawTransaction highFeeEnv (payTo "80")).err = none ∧
    (CreateBBCRawTransaction highFeeEnv (payTo "80")).rawTx.TxFrom = ["A"] ∧
    availOf highFeeEnv "A" < amountPlusFee highFeeEnv (payTo "80") ∧
    (queryBalances highFeeEnv (payTo "80")).1
      = .ok ("genesis", [⟨"A", 100, 0⟩, ⟨"B", 50, 1⟩]) ∧
    fundedOf highFeeEnv (amountPlusFee highFeeEnv (payTo "80"))
      (sortSlice highFeeEnv [⟨"A", 100, 0⟩, ⟨"B", 50, 1⟩]) = [] := by
  refine ⟨by decide, by decide, by decide, ?_, by decide, by decide, by decide, rfl, by decide⟩
  have hV : (CreateBBCRawTransaction exampleEnv zeroPay).rawTx.Vins = [⟨"t1", 0⟩] := by decide
  have hN : amountPlusFee exampleEnv zeroPay = 0 := by decide
  rw [hV, hN]
  rintro ⟨k, -, hv, -, hmin⟩
  rcases Nat.eq_zero_or_pos k with rfl | hk
  · simp at hv
  · have := hmin 0 hk
    simp at this

/-- C3, amended: when the balances were queried, the amount, the fee, every balance and
every free output are below `2^63` base units, and some funded address (balance of
amount plus fee or more) has free outputs, at least one, that total amount plus
fee or more, then the funded addresses, in the order in which the sort call of
line 127 leaves the balances (by descending balance for an account of at most 6
addresses), split into addresses whose free outputs cannot pay, the chosen
address, the first whose free outputs can pay, and the rest; `TxFrom` is the
chosen address, the inputs handed to the encoder, which are the inputs of the
transaction when it is built, spend the shortest non-empty initial run of its free
outputs that holds amount plus fee or more, and the `listUnnSpent` lookups made
are exactly those of the funded addresses up to the chosen one. -/
theorem first_fit_selection (env : Env) (rawTx : RawTransaction) (anchor : String)
    (queried : List AddrBalance)
    (hq : (queryBalances env rawTx).1 = .ok (anchor, queried))
    (hA : fromAmount env (firstTo rawTx.To).2 < 2 ^ 63)
    (hF : feeOf env rawTx.FeeRate < 2 ^ 63)
    (hB : ∀ b ∈ queried, availOf env b.Address < 2 ^ 63)
    (hU : ∀ b ∈ queried, ∀ u ∈ availableOf env anchor b, u.Amount < 2 ^ 63)
    (hfit : ∃ c ∈ fundedOf env (amountPlusFee env rawTx) (sortSlice env queried),
      CanPay (amountPlusFee env rawTx) (availableOf env anchor c)) :
    ∃ l1 c l2 vins,
      fundedOf env (amountPlusFee env rawTx) (sortSlice env queried) = l1 ++ c :: l2 ∧
      (∀ b ∈ l1, ¬ CanPay (amountPlusFee env rawTx) (availableOf env anchor b)) ∧
      CanPay (amountPlusFee env rawTx) (availableOf env anchor c) ∧
      IsShortestNonemptyCoverUnits (amountPlusFee env rawTx) (availableOf env anchor c) vins ∧
      (CreateBBCRawTransaction env rawTx).rawTx.TxFrom = [c.Address] ∧
      Call.CreateEmptyTransactionAndHash vins (firstTo rawTx.To).1
          (fromAmount env (firstTo rawTx.To).2) (feeOf env rawTx.FeeRate)
        ∈ (CreateBBCRawTransaction env rawTx).calls ∧
      ((CreateBBCRawTransaction env rawTx).err = none →
        (CreateBBCRawTransaction env rawTx).rawTx.Vins = vins) ∧
      (CreateBBCRawTransaction env rawTx).calls.filter isUtxoLookup = lookupsOf (l1 ++ [c]) ∧
      (queried.length ≤ 6 →
        (l1 ++ c :: l2).Pairwise
          (fun a b => availOf env b.Address ≤ availOf env a.Address)) := by
  have hbal := queried_balance hq
  have hN := neededAmount_eq hA hF
  have hE : enoughBalances (neededAmount env rawTx) (sortSlice env queried)
      = fundedOf env (amountPlusFee env rawTx) (sortSlice env queried) :=
    enoughBalances_eq_funded hA hF (fun b hb => hbal b (mem_sortSlice.mp hb))
      (fun b hb => hB b (mem_sortSlice.mp hb))
  have hfq : ∀ b ∈ fundedOf env (amountPlusFee env rawTx) (sortSlice env queried),
      b ∈ queried := by
    intro b hb
    exact mem_sortSlice.mp (List.mem_filter.mp hb).1
  obtain ⟨c0, hc0, hcp⟩ := hfit
  have hne : enoughBalances (neededAmount env rawTx) (sortSlice env queried) ≠ [] := by
    rw [hE]; exact List.ne_nil_of_mem hc0
  obtain ⟨hF1, hCall, hLook, hS, -⟩ := create_selected hq hne
  rcases selectLoop_spec env anchor (poolOf env) (neededAmount env rawTx)
      (enoughBalances (neededAmount env rawTx) (sortSlice env queried)) "" with
    ⟨-, -, -, hall⟩ | ⟨l1, c, l2, tmp, hsplit, hnone, hsc, -, h5, h6, h7⟩
  · exfalso
    have hno := scanOf_none_noCover (hall c0 (by rw [hE]; exact hc0))
    rw [hN] at hno
    exact noCover_not_canPay (hU c0 (hfq c0 hc0)) hno hcp
  · rw [hE] at hsplit
    have hcq : c ∈ queried := hfq c (by rw [hsplit]; simp)
    have hcov := scanOf_some_cover hsc
    rw [hN] at hcov
    have hcov1 := shortestCover_units (hU c hcq) hcov
    refine ⟨l1, c, l2, tmp, hsplit, ?_, ?_, hcov1, by rw [hF1, h6], by rw [← h5]; exact hCall,
      fun hok => by rw [(hS hok).1, h5], by rw [hLook, h7, lookupsOf_filter], ?_⟩
    · intro b hb
      have hbq : b ∈ queried := hfq b (by rw [hsplit]; simp [hb])
      have hno := scanOf_none_noCover (hnone b hb)
      rw [hN] at hno
      exact noCover_not_canPay (hU b hbq) hno
    · obtain ⟨k, hk0, hk1, -, hs, -⟩ := hcov1
      refine ⟨?_, le_trans hs (unitsSum_take_le _ k)⟩
      intro h0
      rw [h0] at hk1
      simp at hk1
      omega
    · intro hlen
      have hs := sortSlice_sorted env hlen (queried_index_increasing hq)
      have hs1 : (fundedOf env (amountPlusFee env rawTx) (sortSlice env queried)).Pairwise
          sortedBefore := hs.sublist (List.filter_sublist _)
      rw [hsplit] at hs1
      refine hs1.imp_of_mem ?_
      intro a b ha hb hab
      have haq : a ∈ queried := hfq a (by rw [hsplit]; exact ha)
      have hbq : b ∈ queried := hfq b (by rw [hsplit]; exact hb)
      have h1 := hbal a haq
      have h2 := hbal b hbq
      rw [int64_of_lt (hB a haq)] at h1
      rw [int64_of_lt (hB b hbq)] at h2
      unfold sortedBefore at hab
      rw [h1, h2] at hab
      omega

theorem first_fit_selection_witness :
    (queryBalances pendingEnv (payTo "40")).1 = .ok ("genesis", [⟨"A", 100, 0⟩, ⟨"B", 50, 1⟩]) ∧
    fundedOf pendingEnv (amountPlusFee pendingEnv (payTo "40"))
      (sortSlice pendingEnv [⟨"A", 100, 0⟩, ⟨"B", 50, 1⟩]) = [⟨"A", 100, 0⟩, ⟨"B", 50, 1⟩] ∧
    availableOf pendingEnv "genesis" ⟨"A", 100, 0⟩ = [] ∧
    availableOf pendingEnv "genesis" ⟨"B", 50, 1⟩ = [⟨"t3", 0, 50⟩] ∧
    (CreateBBCRawTransaction pendingEnv (payTo "40")).rawTx.TxFrom = ["B"] ∧
    (CreateBBCRawTransaction pendingEnv (payTo "40")).rawTx.Vins = [vinOf ⟨"t3", 0, 50⟩] ∧
    (CreateBBCRawTransaction pendingEnv (payTo "40")).calls.filter isUtxoLookup
      = [Call.listUnnSpent "A", Call.listUnnSpent "B"] ∧
    ∃ l1 c l2 vins,
      fundedOf pendingEnv (amountPlusFee pendingEnv (payTo "40"))
        (sortSlice pendingEnv [⟨"A", 100, 0⟩, ⟨"B", 50, 1⟩]) = l1 ++ c :: l2 ∧
      (∀ b ∈ l1, ¬ CanPay (amountPlusFee pendingEnv (payTo "40"))
        (availableOf pendingEnv "genesis" b)) ∧
      CanPay (amountPlusFee pendingEnv (payTo "40")) (availableOf pendingEnv "genesis" c) ∧
      IsShortestNonemptyCoverUnits (amountPlusFee pendingEnv (payTo "40"))
        (availableOf pendingEnv "genesis" c) vins ∧
      (CreateBBCRawTransaction pendingEnv (payTo "40")).rawTx.TxFrom = [c.Address] ∧
      Call.CreateEmptyTransactionAndHash vins (firstTo (payTo "40").To).1
          (fromAmount pendingEnv (firstTo (payTo "40").To).2)
          (feeOf pendingEnv (payTo "40").FeeRate)
        ∈ (CreateBBCRawTransaction pendingEnv (payTo "40")).calls ∧
      ((CreateBBCRawTransaction pendingEnv (payTo "40")).err = none →
        (CreateBBCRawTransaction pendingEnv (payTo "40")).rawTx.Vins = vins) ∧
      (CreateBBCRawTransaction pendingEnv (payTo "40")).calls.filter isUtxoLookup
        = lookupsOf (l1 ++ [c]) ∧
      ([(⟨"A", 100, 0⟩ : AddrBalance), ⟨"B", 50, 1⟩].length ≤ 6 →
        (l1 ++ c :: l2).Pairwise
          (fun a b => availOf pendingEnv b.Address ≤ availOf pendingEnv a.Address)) :=
  ⟨rfl, by decide, by decide, by decide, by decide, by decide, by decide,
    first_fit_selection pendingEnv (payTo "40") "genesis" _ rfl (by decide) (by decide)
      (by decide) (by decide)
      ⟨⟨"B", 50, 1⟩, by decide, by decide, by decide⟩⟩

end BigBang
